import Mathlib

/-!
Verification of `make_local_connectivity_scorr.py` (pyClusterROI).

The source builds, for every in-mask voxel with a non-degenerate time course,
the spatial-correlation weights between the voxel's whole-brain functional
connectivity map and the maps of its 27-stencil neighbours, and accumulates
sparse (row, column, weight) triplets into one concatenated output vector.

Modelling conventions used throughout this file:
* machine floats are modelled by exact real numbers `ℝ`;
* Lean's convention `x / 0 = 0` coincides with the source's explicit
  NaN-substitution steps (`imdat[isnan(imdat)] = 0`, `R[isnan(R)] = 0`),
  because in exact arithmetic every NaN produced by those computations is of
  the form `0 / 0`: a zero standard deviation forces a zero numerator in the
  z-score, and a zero FC-map variance forces a zero covariance numerator in
  `corrcoef` (there is a comment at each spot below);
* scipy sparse row indexing `msk[ndx1d]` is modelled by `lookupAll`:
  a negative row index is wrapped by adding the number of rows, and an index
  that is (still) out of `[0, nrows)` raises `IndexError`, modelled by
  `Except.error`;
* fallible numpy/scipy steps (out-of-range sparse indexing, shape-mismatched
  broadcasting) are modelled with `Except`.
-/

/-- A 3D spatial shape `(sx, sy, sz)`; in the source this is `sz[1:]` of the
4D data (equal to the mask's shape for co-registered inputs). -/
abbrev Shape := ℕ × ℕ × ℕ

/-- Total number of voxels, `prod(msz)` in the source. -/
def Npix (s : Shape) : ℕ := s.1 * s.2.1 * s.2.2

/-- `indx_1dto3d(idx, sz)` (source lines 46-50): flat index to 3D coordinate,
`x = idx // (sy*sz)`, `y = (idx - x*sy*sz) // sz`, `z = idx - x*sy*sz - y*sz`.
It is only ever applied to non-negative flat indices (entries of `iv`). -/
def indx_1dto3d (idx : ℕ) (s : Shape) : ℕ × ℕ × ℕ :=
  (idx / (s.2.1 * s.2.2),
   (idx - idx / (s.2.1 * s.2.2) * (s.2.1 * s.2.2)) / s.2.2,
   idx - idx / (s.2.1 * s.2.2) * (s.2.1 * s.2.2)
       - (idx - idx / (s.2.1 * s.2.2) * (s.2.1 * s.2.2)) / s.2.2 * s.2.2)

/-- `indx_3dto1d(idx, sz)`, rank-1 branch (source line 56):
`idx[0]*sy*sz + idx[1]*sz + idx[2]`.  Coordinates are integers because the
stencil offsets can push them negative. -/
def indx_3dto1d (c : ℤ × ℤ × ℤ) (s : Shape) : ℤ :=
  c.1 * ((s.2.1 : ℤ) * (s.2.2 : ℤ)) + c.2.1 * (s.2.2 : ℤ) + c.2.2

/-- `indx_3dto1d`, rank-2 (batch) branch (source line 58): the same formula
applied to every row of an N×3 batch. -/
def indx_3dto1d_batch (cs : List (ℤ × ℤ × ℤ)) (s : Shape) : List ℤ :=
  cs.map (fun c =>
    c.1 * ((s.2.1 : ℤ) * (s.2.2 : ℤ)) + c.2.1 * (s.2.2 : ℤ) + c.2.2)

/-- Embed a non-negative 3D coordinate into `ℤ³`. -/
def c3z (c : ℕ × ℕ × ℕ) : ℤ × ℤ × ℤ := ((c.1 : ℤ), (c.2.1 : ℤ), (c.2.2 : ℤ))

/-- Componentwise sum of 3D integer coordinates (the numpy broadcast
`indx_1dto3d(iv[i], sz[1:]) + neighbors`, source line 138). -/
def add3 (a d : ℤ × ℤ × ℤ) : ℤ × ℤ × ℤ := (a.1 + d.1, a.2.1 + d.2.1, a.2.2 + d.2.2)

/-- The 27 stencil offsets, in source order (source lines 82-90). -/
def neighbors : List (ℤ × ℤ × ℤ) :=
  [(-1,-1,-1),(0,-1,-1),(1,-1,-1),
   (-1, 0,-1),(0, 0,-1),(1, 0,-1),
   (-1, 1,-1),(0, 1,-1),(1, 1,-1),
   (-1,-1, 0),(0,-1, 0),(1,-1, 0),
   (-1, 0, 0),(0, 0, 0),(1, 0, 0),
   (-1, 1, 0),(0, 1, 0),(1, 1, 0),
   (-1,-1, 1),(0,-1, 1),(1,-1, 1),
   (-1, 0, 1),(0, 0, 1),(1, 0, 1),
   (-1, 1, 1),(0, 1, 1),(1, 1, 1)]

/-- `ndx1d` of the loop body (source lines 138-140): the 27 candidate flat
indices of a seed voxel, via `indx_1dto3d`, the broadcast offset sum, and the
batch branch of `indx_3dto1d`.  No bounds clamping happens here. -/
def stencilFlats (s : Shape) (seed : ℕ) : List ℤ :=
  indx_3dto1d_batch (neighbors.map (fun d => add3 (c3z (indx_1dto3d seed s)) d)) s

/-- Negative-index wrapping of scipy/numpy row indexing: a negative index
counts from the end of the axis. -/
def wrapIdx (N : ℕ) (f : ℤ) : ℤ := if f < 0 then f + (N : ℤ) else f

/-- Value stored at row `idx` of the sparse column vector
`csc_matrix((vndx+1, (iv, zeros)), shape=(prod(msz),1))` (source line 129):
CSC construction sums duplicate entries, and rows that carry no entry read
as 0. -/
def cscValue (entries : List (ℕ × ℕ)) (idx : ℤ) : ℕ :=
  ((entries.filter (fun e => ((e.1 : ℤ) == idx))).map (fun e => e.2)).sum

/-- A single sparse row read `msk[f]`: wrap a negative index, then either
return the stored value or raise `IndexError` when the index is out of the
key range `[0, prod(msz))`. -/
def cscLookup (N : ℕ) (entries : List (ℕ × ℕ)) (f : ℤ) : Except String ℕ :=
  if 0 ≤ wrapIdx N f ∧ wrapIdx N f < (N : ℤ) then
    Except.ok (cscValue entries (wrapIdx N f))
  else Except.error "IndexError: row index out of bounds"

/-- The vectorised sparse read `msk[ndx1d]` (source line 142): it fails with
`IndexError` when any index is out of range after wrapping, and otherwise
gathers all the stored values. -/
def lookupAll (N : ℕ) (entries : List (ℕ × ℕ)) (fs : List ℤ) : Except String (List ℕ) :=
  if fs.all (fun f => decide (0 ≤ wrapIdx N f ∧ wrapIdx N f < (N : ℤ))) then
    Except.ok (fs.map (fun f => cscValue entries (wrapIdx N f)))
  else Except.error "IndexError: row index out of bounds"

/-- `nonzero(mskdat)[0]` after `reshape` (source lines 98-102): the ordered
flat indices of the non-zero mask entries.  Positions beyond the end of the
stored list read as 0. -/
def inmaskIndices (N : ℕ) (mskdat : List ℤ) : List ℕ :=
  (List.range N).filter (fun v => decide (mskdat.getD v 0 ≠ 0))

/-- Column `v` of the reshaped T × (sx*sy*sz) data array (used by the masking
step `imdat[:, iv]`, source line 113). -/
def colOf (imdat0 : List (List ℝ)) (v : ℕ) : List ℝ :=
  imdat0.map (fun row => row.getD v 0)

/-- `mean(imdat, 0)` for one column. -/
noncomputable def meanR (xs : List ℝ) : ℝ := xs.sum / (xs.length : ℝ)

/-- Population variance of one column (`var(·, 0)` / squared `std(·, 0)`,
ddof 0, as numpy uses on source lines 117 and 125). -/
noncomputable def var0 (xs : List ℝ) : ℝ :=
  ((xs.map (fun x => (x - meanR xs) ^ 2)).sum) / (xs.length : ℝ)

/-- `std(imdat, 0)` for one column. -/
noncomputable def std0 (xs : List ℝ) : ℝ := Real.sqrt (var0 xs)

/-- Z-scoring of one column, `(imdat - imdat_m) / imdat_s` followed by
`imdat[isnan(imdat)] = 0` (source lines 117-120).  When `std0 xs = 0` every
numerator `x - meanR xs` is also 0 (the column is constant), so the float
NaNs are exactly the `0/0` entries, which Lean's `x / 0 = 0` convention
already sends to 0. -/
noncomputable def zscore (xs : List ℝ) : List ℝ :=
  xs.map (fun x => (x - meanR xs) / std0 xs)

/-- The masked, z-scored data `imdat` as a list of columns, one per in-mask
voxel (source lines 113-120).  Note the zero-variance columns are kept (as
all-zero columns); only `iv` is pruned at line 126. -/
noncomputable def zcolsOf (imdat0 : List (List ℝ)) (iv0 : List ℕ) : List (List ℝ) :=
  iv0.map (fun v => zscore (colOf imdat0 v))

/-- `vndx = nonzero(var(imdat,0) != 0)[0]` (source line 125): positions,
within the in-mask column sequence, of the columns whose (z-scored) variance
is non-zero. -/
noncomputable def vndxOf (zc : List (List ℝ)) : List ℕ :=
  (List.range zc.length).filter (fun j => decide (var0 (zc.getD j []) ≠ 0))

/-- `iv = iv[vndx]` (source line 126): the final retained flat indices. -/
def ivFinal (iv0 : List ℕ) (vndx : List ℕ) : List ℕ :=
  vndx.map (fun j => iv0.getD j 0)

/-- The (row, value) pairs of the sparse mask map
`csc_matrix((vndx+1, (iv, zeros)), ...)` (source line 129): row `iv[j]`
stores `vndx[j] + 1`. -/
def cscEntries (iv vndx : List ℕ) : List (ℕ × ℕ) :=
  iv.zip (vndx.map (fun j => j + 1))

/-- `dot` of two equal-length real vectors. -/
noncomputable def dotR (x y : List ℝ) : ℝ :=
  ((x.zip y).map (fun p => p.1 * p.2)).sum

/-- One row of `fc = dot(tc.T, imdat)/(sz[0]-1)` (source line 155): the
functional-connectivity map of the voxel with z-scored time course `col`,
against every in-mask column of `zc`. -/
noncomputable def fcMap (zc : List (List ℝ)) (T : ℕ) (col : List ℝ) : List ℝ :=
  zc.map (fun c => dotR col c / ((T : ℝ) - 1))

/-- A single entry of `cov` as used by `corrcoef` (ddof 1: the sums of
mean-centred products are divided by `len - 1`). -/
noncomputable def covEntry (x y : List ℝ) : ℝ :=
  ((x.zip y).map (fun p => (p.1 - meanR x) * (p.2 - meanR y))).sum / ((x.length : ℝ) - 1)

/-- `R = corrcoef(fc)` followed by `R[isnan(R)] = 0` (source lines 157-161):
`r_ij = c_ij / (sqrt(c_ii) * sqrt(c_jj))`.  In exact arithmetic a zero
denominator forces a zero numerator (a zero self-covariance means the row is
constant, hence every mean-centred product vanishes), so the float NaNs are
exactly the `0/0` entries, which Lean's division-by-zero convention already
sends to 0.  The source's `rank(R)==0` reshape (lines 158-159) only
normalises the k = 1 scalar back to a 1×1 array and is a no-op here because
this definition is uniformly a k×k matrix. -/
noncomputable def corrcoef (rows : List (List ℝ)) : List (List ℝ) :=
  rows.map (fun x => rows.map (fun y =>
    covEntry x y / (Real.sqrt (covEntry x x) * Real.sqrt (covEntry y y))))

/-- `R[R < thresh] = 0` applied to one entry (source line 163). -/
noncomputable def threshClip (t w : ℝ) : ℝ := if w < t then 0 else w

/-- The filtering step `nonzero(ondx1d)[0]` applied to the zipped candidate
indices and mask values (source lines 142-147): the surviving
(flat index, stored value) pairs, in stencil order. -/
def survOf (ndx1d : List ℤ) (vals : List ℕ) : List (ℤ × ℕ) :=
  (ndx1d.zip vals).filter (fun p => decide (p.2 ≠ 0))

/-- `nndx = nonzero(ndx1d == iv[i])[0]` (source line 149): the positions of
the seed among the surviving original flat indices. -/
def nndxOf (seed : ℕ) (ndx1dS : List ℤ) : List ℕ :=
  (List.range ndx1dS.length).filter (fun j => decide (ndx1dS.getD j 0 = (seed : ℤ)))

/-- Source lines 152-163 for one seed: extract the surviving time courses,
build their FC maps against all in-mask columns, correlate, NaN-substitute
and threshold.  Row `p` of the result is `R[p, :]` after line 163. -/
noncomputable def weightsOf (zc : List (List ℝ)) (T : ℕ) (thresh : ℝ)
    (ondx1dS : List ℕ) : List (List ℝ) :=
  ((corrcoef ((ondx1dS.map (fun p => zc.getD p [])).map (fun col => fcMap zc T col))).map
    (fun row => row.map (fun w => threshClip thresh w)))

/-- The loop body after the sparse read succeeded (source lines 144-168),
given the 27 candidate flat indices `ndx1d` and their stored map values:
filter to the in-mask candidates, recover compact positions by subtracting
the map's +1 offset, locate the seed among the survivors, build the FC maps
and their correlation matrix, NaN-substitute and threshold, and emit this
seed's row/column/weight contributions.  If the seed matches a number of
survivors different from one, the numpy broadcast `ondx1d[nndx]*ones(k)`
(and the axis-1 append of `R[nndx,:]`, lines 167-168) raises; the
`nndx = []` branch of that failure is unreachable from the pipeline because
a retained seed always survives its own mask lookup. -/
noncomputable def seedEmit (zc : List (List ℝ)) (T : ℕ) (thresh : ℝ) (seed : ℕ)
    (ndx1d : List ℤ) (vals : List ℕ) : Except String (List ℕ × List ℕ × List ℝ) :=
  match nndxOf seed ((survOf ndx1d vals).map (fun p => p.1)) with
  | [p] => Except.ok ((survOf ndx1d vals).map (fun p => p.2 - 1),
      List.replicate ((survOf ndx1d vals).map (fun p => p.2 - 1)).length
        (((survOf ndx1d vals).map (fun p => p.2 - 1)).getD p 0),
      (weightsOf zc T thresh ((survOf ndx1d vals).map (fun p => p.2 - 1))).getD p [])
  | _ => Except.error "ValueError: operands could not be broadcast together"

/-- One full iteration of the seed loop (source lines 136-168): the sparse
read of the 27 stencil candidates, then `seedEmit`. -/
noncomputable def seedStep (s : Shape) (N : ℕ) (entries : List (ℕ × ℕ))
    (zc : List (List ℝ)) (T : ℕ) (thresh : ℝ) (seed : ℕ) :
    Except String (List ℕ × List ℕ × List ℝ) :=
  match lookupAll N entries (stencilFlats s seed) with
  | Except.error e => Except.error e
  | Except.ok vals => seedEmit zc T thresh seed (stencilFlats s seed) vals

/-- `iv` before variance pruning (source line 102), from shape and mask. -/
def iv0Of (s : Shape) (mskdat : List ℤ) : List ℕ :=
  inmaskIndices (Npix s) mskdat

/-- The masked z-scored columns, from shape, mask and data. -/
noncomputable def zcOf (s : Shape) (mskdat : List ℤ) (imdat0 : List (List ℝ)) :
    List (List ℝ) :=
  zcolsOf imdat0 (iv0Of s mskdat)

/-- `vndx` from shape, mask and data. -/
noncomputable def vndxO (s : Shape) (mskdat : List ℤ) (imdat0 : List (List ℝ)) : List ℕ :=
  vndxOf (zcOf s mskdat imdat0)

/-- The final retained flat-index sequence `iv`, from shape, mask and data. -/
noncomputable def ivO (s : Shape) (mskdat : List ℤ) (imdat0 : List (List ℝ)) : List ℕ :=
  ivFinal (iv0Of s mskdat) (vndxO s mskdat imdat0)

/-- The sparse mask-map entries, from shape, mask and data. -/
noncomputable def entriesO (s : Shape) (mskdat : List ℤ) (imdat0 : List (List ℝ)) :
    List (ℕ × ℕ) :=
  cscEntries (ivO s mskdat imdat0) (vndxO s mskdat imdat0)

/-- The whole computation `make_local_connectivity_scorr` (source lines
80-180), from the already-flattened mask and the already-reshaped
T × (sx*sy*sz) data to the concatenated output vector
`sparse_i ++ sparse_j ++ sparse_w`.  An uncaught Python exception anywhere
in the loop aborts the run with no output, which `Except.error` models. -/
noncomputable def makeLocalConnectivityScorr (s : Shape) (mskdat : List ℤ)
    (imdat0 : List (List ℝ)) (thresh : ℝ) : Except String (List ℝ) :=
  match (ivO s mskdat imdat0).mapM
      (fun v => seedStep s (Npix s) (entriesO s mskdat imdat0)
        (zcOf s mskdat imdat0) imdat0.length thresh v) with
  | Except.error e => Except.error e
  | Except.ok results =>
      Except.ok ((((results.map (fun x => x.1)).flatten).map (fun n => (Nat.cast n : ℝ)))
        ++ (((results.map (fun x => x.2.1)).flatten).map (fun n => (Nat.cast n : ℝ)))
        ++ (results.map (fun x => x.2.2)).flatten)

/-! ### Concrete inputs used to exercise the computation

Scenario A: a 3×3×3 volume whose mask retains only the centre voxel
(flat index 13), with a two-point time course `[0, 2]` everywhere.
Scenario B: the same volume with voxels 13 and 14 in-mask, carrying the
anti-correlated time courses `[0, 2]` and `[2, 0]`.
Scenario C: voxels 12 and 13 in-mask, voxel 12 carrying the constant
(zero-variance) course `[5, 5]` and voxel 13 carrying `[0, 2]`.
Scenario D: a fully in-mask 2×2×2 volume with the five-point course
`[1, 1, 1, 1, -4]` at every voxel.
Scenario E: a 2×2×2 volume retaining only the corner voxel 0. -/

def maskA : List ℤ := (List.range 27).map (fun v => if v = 13 then 1 else 0)

noncomputable def dataA : List (List ℝ) := [List.replicate 27 0, List.replicate 27 2]

def maskB : List ℤ := (List.range 27).map (fun v => if v = 13 ∨ v = 14 then 1 else 0)

noncomputable def dataB : List (List ℝ) :=
  [(List.range 27).map (fun v => if v = 14 then 2 else 0),
   (List.range 27).map (fun v => if v = 14 then 0 else 2)]

def maskC : List ℤ := (List.range 27).map (fun v => if v = 12 ∨ v = 13 then 1 else 0)

noncomputable def dataC : List (List ℝ) :=
  [(List.range 27).map (fun v => if v = 13 then 0 else 5),
   (List.range 27).map (fun v => if v = 13 then 2 else 5)]

def maskD : List ℤ := List.replicate 8 1

noncomputable def dataD : List (List ℝ) := [List.replicate 8 1, List.replicate 8 1,
  List.replicate 8 1, List.replicate 8 1, List.replicate 8 (-4)]

def maskE : List ℤ := (List.range 8).map (fun v => if v = 0 then 1 else 0)

noncomputable def dataE : List (List ℝ) := [List.replicate 8 0, List.replicate 8 2]

/-! ### Coordinate mapper: roundtrip lemmas -/

/-- Re-flattening the 3D coordinate of any flat index recovers the index. -/
lemma to1d_c3z_to3d (s : Shape) (i : ℕ) :
    indx_3dto1d (c3z (indx_1dto3d i s)) s = (i : ℤ) := by
  unfold indx_3dto1d c3z indx_1dto3d
  have h1 : i / (s.2.1 * s.2.2) * (s.2.1 * s.2.2) ≤ i := Nat.div_mul_le_self _ _
  have h2 : (i - i / (s.2.1 * s.2.2) * (s.2.1 * s.2.2)) / s.2.2 * s.2.2
      ≤ i - i / (s.2.1 * s.2.2) * (s.2.1 * s.2.2) := Nat.div_mul_le_self _ _
  simp only
  push_cast [h1, h2]
  ring

/-- Converting an in-bounds 3D coordinate to a flat index and back recovers
the coordinate (the seed-relevant half does not even need the x bound). -/
lemma to3d_to1d (s : Shape) (a b g : ℕ) (hb : b < s.2.1) (hg : g < s.2.2) :
    indx_1dto3d ((indx_3dto1d (c3z (a, b, g)) s).toNat) s = (a, b, g) := by
  have hsz : 0 < s.2.2 := lt_of_le_of_lt (Nat.zero_le g) hg
  have hp : 0 < s.2.1 * s.2.2 := Nat.mul_pos (lt_of_le_of_lt (Nat.zero_le b) hb) hsz
  have hn : (indx_3dto1d (c3z (a, b, g)) s).toNat
      = a * (s.2.1 * s.2.2) + (b * s.2.2 + g) := by
    unfold indx_3dto1d c3z
    simp only
    have hcast : ((a : ℤ) * ((s.2.1 : ℤ) * (s.2.2 : ℤ)) + (b : ℤ) * (s.2.2 : ℤ) + (g : ℤ))
        = ((a * (s.2.1 * s.2.2) + (b * s.2.2 + g) : ℕ) : ℤ) := by push_cast; ring
    rw [hcast, Int.toNat_natCast]
  rw [hn]
  unfold indx_1dto3d
  have hx : (a * (s.2.1 * s.2.2) + (b * s.2.2 + g)) / (s.2.1 * s.2.2) = a := by
    rw [Nat.add_comm, Nat.add_mul_div_right _ _ hp, Nat.div_eq_of_lt]
    · omega
    · calc b * s.2.2 + g < b * s.2.2 + s.2.2 := by omega
        _ = (b + 1) * s.2.2 := by ring
        _ ≤ s.2.1 * s.2.2 := Nat.mul_le_mul_right _ (by omega)
  have hrem : a * (s.2.1 * s.2.2) + (b * s.2.2 + g) - a * (s.2.1 * s.2.2)
      = b * s.2.2 + g := by omega
  have hy : (b * s.2.2 + g) / s.2.2 = b := by
    rw [Nat.add_comm, Nat.add_mul_div_right _ _ hsz, Nat.div_eq_of_lt hg]
    omega
  simp only [Prod.mk.injEq, hx, hrem, hy]
  refine ⟨trivial, trivial, ?_⟩
  omega

/-- Claim C5: for every shape of positive integers, `indx_3dto1d` inverts
`indx_1dto3d` on every flat index in range, `indx_1dto3d` inverts
`indx_3dto1d` on every in-bounds coordinate triple, and the batch branch of
`indx_3dto1d` computes rowwise exactly what the single-triple branch
computes. -/
theorem indx_roundtrip (s : Shape) (_hs : 0 < s.1 ∧ 0 < s.2.1 ∧ 0 < s.2.2) :
    (∀ i : ℕ, i < Npix s → indx_3dto1d (c3z (indx_1dto3d i s)) s = (i : ℤ)) ∧
    (∀ a b g : ℕ, a < s.1 → b < s.2.1 → g < s.2.2 →
      indx_1dto3d ((indx_3dto1d (c3z (a, b, g)) s).toNat) s = (a, b, g)) ∧
    (∀ cs : List (ℤ × ℤ × ℤ), indx_3dto1d_batch cs s = cs.map (fun c => indx_3dto1d c s)) := by
  refine ⟨fun i _ => to1d_c3z_to3d s i, fun a b g _ hb hg => to3d_to1d s a b g hb hg, fun cs => rfl⟩

/-- Witness for C5 at the concrete shape (2,3,4). -/
theorem indx_roundtrip_witness :
    (0 < 2 ∧ 0 < 3 ∧ 0 < 4) ∧
    ((∀ i : ℕ, i < Npix (2,3,4) → indx_3dto1d (c3z (indx_1dto3d i (2,3,4))) (2,3,4) = (i : ℤ)) ∧
     (∀ a b g : ℕ, a < 2 → b < 3 → g < 4 →
       indx_1dto3d ((indx_3dto1d (c3z (a, b, g)) (2,3,4)).toNat) (2,3,4) = (a, b, g)) ∧
     (∀ cs : List (ℤ × ℤ × ℤ),
       indx_3dto1d_batch cs (2,3,4) = cs.map (fun c => indx_3dto1d c (2,3,4)))) :=
  ⟨by norm_num, indx_roundtrip (2,3,4) (by norm_num)⟩

/-! ### Structural lemmas about the stencil and the sparse mask map -/

/-- `indx_3dto1d` is additive over coordinate sums. -/
lemma indx_3dto1d_add3 (a d : ℤ × ℤ × ℤ) (s : Shape) :
    indx_3dto1d (add3 a d) s = indx_3dto1d a s + indx_3dto1d d s := by
  unfold indx_3dto1d add3
  ring

/-- The 27 candidate flat indices of a seed are the seed's own flat index
plus the flattened stencil offsets. -/
lemma stencilFlats_eq (s : Shape) (seed : ℕ) :
    stencilFlats s seed = neighbors.map (fun d => (seed : ℤ) + indx_3dto1d d s) := by
  show (neighbors.map (fun d => add3 (c3z (indx_1dto3d seed s)) d)).map
      (fun c => indx_3dto1d c s) = _
  rw [List.map_map]
  refine List.map_congr_left (fun d _ => ?_)
  show indx_3dto1d (add3 (c3z (indx_1dto3d seed s)) d) s = _
  rw [indx_3dto1d_add3, to1d_c3z_to3d]

/-- Every flattened stencil offset lies within `±(sy*sz + sz + 1)`. -/
lemma offset_bounds (s : Shape) {d : ℤ × ℤ × ℤ} (hd : d ∈ neighbors) :
    -(((s.2.1 : ℤ) * s.2.2) + s.2.2 + 1) ≤ indx_3dto1d d s ∧
      indx_3dto1d d s ≤ ((s.2.1 : ℤ) * s.2.2) + s.2.2 + 1 := by
  have hA : (0 : ℤ) ≤ (s.2.1 : ℤ) * s.2.2 := by positivity
  have hB : (0 : ℤ) ≤ (s.2.2 : ℤ) := by positivity
  fin_cases hd <;> (unfold indx_3dto1d; constructor <;> (simp only; linarith))

/-- The final offset `(1,1,1)` is a stencil member whose flattened value is
exactly `sy*sz + sz + 1`. -/
lemma last_offset_mem (s : Shape) :
    ((1 : ℤ), (1 : ℤ), (1 : ℤ)) ∈ neighbors ∧
      indx_3dto1d (1, 1, 1) s = ((s.2.1 : ℤ) * s.2.2) + s.2.2 + 1 := by
  constructor
  · unfold neighbors; simp
  · unfold indx_3dto1d; ring

/-- A stored value can be read back from a duplicate-free CSC entry list. -/
lemma cscValue_of_mem : ∀ {l : List (ℕ × ℕ)}, (l.map Prod.fst).Nodup →
    ∀ {a b : ℕ}, (a, b) ∈ l → cscValue l ((a : ℤ)) = b := by
  intro l
  induction l with
  | nil => intro _ a b hab; cases hab
  | cons e t ih =>
    intro hnd a b hab
    rw [List.map_cons, List.nodup_cons] at hnd
    rcases List.mem_cons.mp hab with heq | ht
    · subst heq
      unfold cscValue
      rw [List.filter_cons_of_pos (by simp)]
      have hrest : t.filter (fun q => ((q.1 : ℤ) == (a : ℤ))) = [] := by
        rw [List.filter_eq_nil_iff]
        intro q hq
        have : q.1 ≠ a := by
          intro hfst
          have hmem : q.1 ∈ t.map Prod.fst := List.mem_map_of_mem Prod.fst hq
          exact hnd.1 (hfst ▸ hmem)
        simpa using fun h => this (by exact_mod_cast h)
      simp [hrest]
    · have hne : (e.1 : ℤ) ≠ (a : ℤ) := by
        have : e.1 ≠ a := by
          intro hfst
          have hmem : a ∈ t.map Prod.fst := by
            have h2 := List.mem_map_of_mem Prod.fst ht
            simpa using h2
          rw [← hfst] at hmem
          exact hnd.1 hmem
        exact_mod_cast this
      unfold cscValue
      rw [List.filter_cons_of_neg (by simpa using hne)]
      exact ih hnd.2 ht

/-- A row index matching no entry reads as 0. -/
lemma cscValue_of_not_mem {l : List (ℕ × ℕ)} {w : ℤ}
    (h : ∀ e ∈ l, ((e : ℕ × ℕ).1 : ℤ) ≠ w) : cscValue l w = 0 := by
  unfold cscValue
  have : l.filter (fun q => ((q.1 : ℤ) == w)) = [] := by
    rw [List.filter_eq_nil_iff]
    intro q hq
    simpa using fun hbeq => h q hq (by exact_mod_cast hbeq)
  simp [this]

/-- A non-zero read comes from some entry. -/
lemma cscValue_ne_zero {l : List (ℕ × ℕ)} {w : ℤ}
    (h : cscValue l w ≠ 0) : ∃ e ∈ l, ((e : ℕ × ℕ).1 : ℤ) = w := by
  by_contra hall
  push_neg at hall
  exact h (cscValue_of_not_mem hall)

/-! ### Properties of the retained-index sequences -/

/-- Membership in the pre-pruning in-mask sequence. -/
lemma mem_inmask {N : ℕ} {m : List ℤ} {v : ℕ} :
    v ∈ inmaskIndices N m ↔ v < N ∧ m.getD v 0 ≠ 0 := by
  unfold inmaskIndices
  simp [List.mem_filter]

/-- The in-mask sequence has no duplicates. -/
lemma inmask_nodup (N : ℕ) (m : List ℤ) : (inmaskIndices N m).Nodup :=
  (List.nodup_range N).filter _

/-- Membership in `vndx`. -/
lemma mem_vndx {zc : List (List ℝ)} {j : ℕ} :
    j ∈ vndxOf zc ↔ j < zc.length ∧ var0 (zc.getD j []) ≠ 0 := by
  unfold vndxOf
  simp [List.mem_filter]

/-- `vndx` has no duplicates. -/
lemma vndx_nodup (zc : List (List ℝ)) : (vndxOf zc).Nodup :=
  (List.nodup_range zc.length).filter _

/-- The z-scored column list is as long as the in-mask sequence. -/
lemma zcolsOf_length (imdat0 : List (List ℝ)) (iv0 : List ℕ) :
    (zcolsOf imdat0 iv0).length = iv0.length := List.length_map _ _

/-- `iv` is as long as `vndx`. -/
lemma ivFinal_length (iv0 vndx : List ℕ) :
    (ivFinal iv0 vndx).length = vndx.length := List.length_map _ _

/-- `iv` has no duplicates when `vndx` indexes into a duplicate-free
`iv0`. -/
lemma ivFinal_nodup {iv0 vndx : List ℕ} (h0 : iv0.Nodup) (hv : vndx.Nodup)
    (hlt : ∀ j ∈ vndx, j < iv0.length) : (ivFinal iv0 vndx).Nodup := by
  refine List.Nodup.map_on ?_ hv
  intro j1 h1 j2 h2 heq
  have hb1 : j1 < iv0.length := hlt j1 h1
  have hb2 : j2 < iv0.length := hlt j2 h2
  rw [List.getD_eq_getElem iv0 0 hb1, List.getD_eq_getElem iv0 0 hb2] at heq
  exact (List.Nodup.getElem_inj_iff h0).mp heq

/-- All members of `vndx` (built from the pipeline) index into `iv0`. -/
lemma vndxO_lt (s : Shape) (m : List ℤ) (d : List (List ℝ)) :
    ∀ j ∈ vndxO s m d, j < (iv0Of s m).length := by
  intro j hj
  unfold vndxO at hj
  have h2 := (mem_vndx.mp hj).1
  unfold zcOf at h2
  rwa [zcolsOf_length] at h2

/-- `iv` (from the pipeline) has no duplicates. -/
lemma ivO_nodup (s : Shape) (m : List ℤ) (d : List (List ℝ)) :
    (ivO s m d).Nodup :=
  ivFinal_nodup (inmask_nodup _ _) (vndx_nodup _) (vndxO_lt s m d)

/-- Members of `iv` are in-mask flat indices, in particular below `Npix`. -/
lemma mem_ivO (s : Shape) (m : List ℤ) (d : List (List ℝ)) {v : ℕ}
    (hv : v ∈ ivO s m d) : v ∈ iv0Of s m := by
  unfold ivO ivFinal at hv
  rcases List.mem_map.mp hv with ⟨j, hj, hval⟩
  have hjlt := vndxO_lt s m d j hj
  rw [List.getD_eq_getElem _ 0 hjlt] at hval
  exact hval ▸ List.getElem_mem hjlt

/-- Indexing a zip by a position in range of both lists. -/
lemma getD_mem_zip {l1 l2 : List ℕ} {j : ℕ} (h1 : j < l1.length) (h2 : j < l2.length) :
    (l1.getD j 0, l2.getD j 0) ∈ l1.zip l2 := by
  have hz : j < (l1.zip l2).length := by
    rw [List.length_zip]; omega
  have : (l1.zip l2)[j] = (l1[j], l2[j]) := List.getElem_zip
  rw [List.getD_eq_getElem _ 0 h1, List.getD_eq_getElem _ 0 h2, ← this]
  exact List.getElem_mem hz

/-- The first components of the sparse entry list form exactly `iv`. -/
lemma cscEntries_fst (iv vndx : List ℕ) (hlen : iv.length = vndx.length) :
    (cscEntries iv vndx).map Prod.fst = iv := by
  unfold cscEntries
  exact List.map_fst_zip _ _ (by rw [List.length_map]; omega)

/-- Reading the sparse mask map at the j-th retained flat index yields
`vndx[j] + 1` (pipeline-level). -/
lemma cscValue_at_retained (s : Shape) (m : List ℤ) (d : List (List ℝ)) {j : ℕ}
    (hj : j < (vndxO s m d).length) :
    cscValue (entriesO s m d) (((ivO s m d).getD j 0 : ℤ))
      = (vndxO s m d).getD j 0 + 1 := by
  have hlen : (ivO s m d).length = (vndxO s m d).length := ivFinal_length _ _
  have hjv : j < (ivO s m d).length := by omega
  have hmap : ((vndxO s m d).map (fun q => q + 1)).getD j 0 = (vndxO s m d).getD j 0 + 1 := by
    rw [List.getD_eq_getElem _ 0 (by rw [List.length_map]; omega),
      List.getD_eq_getElem _ 0 hj, List.getElem_map]
  have hmem : ((ivO s m d).getD j 0, (vndxO s m d).getD j 0 + 1) ∈ entriesO s m d := by
    unfold entriesO cscEntries
    rw [← hmap]
    exact getD_mem_zip hjv (by rw [List.length_map]; omega)
  have hnd : ((entriesO s m d).map Prod.fst).Nodup := by
    unfold entriesO
    rw [cscEntries_fst _ _ hlen]
    exact ivO_nodup s m d
  exact cscValue_of_mem hnd hmem

/-- A non-zero sparse read (pipeline-level) identifies a retained position:
the read index is the j-th retained flat index and the value is
`vndx[j] + 1`. -/
lemma cscValue_inv (s : Shape) (m : List ℤ) (d : List (List ℝ)) {w : ℤ}
    (h : cscValue (entriesO s m d) w ≠ 0) :
    ∃ j, j < (vndxO s m d).length ∧ w = (((ivO s m d).getD j 0 : ℕ) : ℤ) ∧
      cscValue (entriesO s m d) w = (vndxO s m d).getD j 0 + 1 := by
  rcases cscValue_ne_zero h with ⟨e, hmem, hfst⟩
  have hlen : (ivO s m d).length = (vndxO s m d).length := ivFinal_length _ _
  rcases List.mem_iff_getElem.mp hmem with ⟨j, hjz, hget⟩
  have hjz2 : j < ((ivO s m d).zip ((vndxO s m d).map (fun q => q + 1))).length := hjz
  have hjlt : j < (vndxO s m d).length := by
    have := hjz2
    rw [List.length_zip, List.length_map] at this
    omega
  have hjiv : j < (ivO s m d).length := by omega
  have hjm : j < ((vndxO s m d).map (fun q => q + 1)).length := by
    rw [List.length_map]; omega
  refine ⟨j, hjlt, ?_, ?_⟩
  · have hz : ((ivO s m d).zip ((vndxO s m d).map (fun q => q + 1)))[j]
        = ((ivO s m d)[j], ((vndxO s m d).map (fun q => q + 1))[j]) := List.getElem_zip
    have : e.1 = (ivO s m d)[j] := by
      have heq : e = ((ivO s m d)[j], ((vndxO s m d).map (fun q => q + 1))[j]) := by
        rw [← hget]
        exact hz.symm ▸ rfl
      rw [heq]
    rw [← hfst, this, List.getD_eq_getElem _ 0 hjiv]
  · have hwval : w = (((ivO s m d).getD j 0 : ℕ) : ℤ) := by
      have hz : ((ivO s m d).zip ((vndxO s m d).map (fun q => q + 1)))[j]
          = ((ivO s m d)[j], ((vndxO s m d).map (fun q => q + 1))[j]) := List.getElem_zip
      have : e.1 = (ivO s m d)[j] := by
        have heq : e = ((ivO s m d)[j], ((vndxO s m d).map (fun q => q + 1))[j]) := by
          rw [← hget]
          exact hz.symm ▸ rfl
        rw [heq]
      rw [← hfst, this, List.getD_eq_getElem _ 0 hjiv]
    rw [hwval]
    exact cscValue_at_retained s m d hjlt

/-! ### Inversion lemmas for the fallible steps -/

/-- A successful vectorised sparse read: in-bounds everywhere, values
gathered pointwise. -/
lemma lookupAll_ok {N : ℕ} {entries : List (ℕ × ℕ)} {fs : List ℤ} {vals : List ℕ}
    (h : lookupAll N entries fs = Except.ok vals) :
    vals = fs.map (fun f => cscValue entries (wrapIdx N f)) ∧
      ∀ f ∈ fs, 0 ≤ wrapIdx N f ∧ wrapIdx N f < (N : ℤ) := by
  unfold lookupAll at h
  by_cases hc : fs.all (fun f => decide (0 ≤ wrapIdx N f ∧ wrapIdx N f < (N : ℤ))) = true
  · rw [if_pos hc] at h
    injection h with h2
    refine ⟨h2.symm, fun f hf => ?_⟩
    exact of_decide_eq_true (List.all_eq_true.mp hc f hf)
  · rw [if_neg hc] at h
    cases h

/-- The converse: when every wrapped index is in range, the vectorised read
succeeds with the pointwise values. -/
lemma lookupAll_of_bounds {N : ℕ} {entries : List (ℕ × ℕ)} {fs : List ℤ}
    (h : ∀ f ∈ fs, 0 ≤ wrapIdx N f ∧ wrapIdx N f < (N : ℤ)) :
    lookupAll N entries fs = Except.ok (fs.map (fun f => cscValue entries (wrapIdx N f))) := by
  unfold lookupAll
  rw [if_pos (List.all_eq_true.mpr (fun f hf => decide_eq_true (h f hf)))]

/-- Zipping a list with its own image and filtering on the image. -/
lemma survOf_map (l : List ℤ) (g : ℤ → ℕ) :
    survOf l (l.map g) = (l.filter (fun f => decide (g f ≠ 0))).map (fun f => (f, g f)) := by
  induction l with
  | nil => rfl
  | cons a tl ih =>
    unfold survOf at ih ⊢
    rw [List.map_cons, List.zip_cons_cons]
    by_cases hga : g a = 0
    · rw [List.filter_cons_of_neg (by simp [hga]), List.filter_cons_of_neg (by simp [hga])]
      exact ih
    · rw [List.filter_cons_of_pos (by simp [hga]), List.filter_cons_of_pos (by simp [hga]),
        List.map_cons]
      rw [ih]

/-- A singleton `nndx` pins down the unique seed position among the
survivors. -/
lemma nndxOf_single {seed : ℕ} {l : List ℤ} {p : ℕ} (h : nndxOf seed l = [p]) :
    p < l.length ∧ l.getD p 0 = (seed : ℤ) ∧
      ∀ j, j < l.length → l.getD j 0 = (seed : ℤ) → j = p := by
  have hp : p ∈ nndxOf seed l := by rw [h]; exact List.mem_singleton.mpr rfl
  unfold nndxOf at hp
  have hp2 := List.mem_filter.mp hp
  refine ⟨List.mem_range.mp hp2.1, of_decide_eq_true hp2.2, ?_⟩
  intro j hj hval
  have hjmem : j ∈ nndxOf seed l := by
    unfold nndxOf
    exact List.mem_filter.mpr ⟨List.mem_range.mpr hj, decide_eq_true hval⟩
  rw [h] at hjmem
  simpa using hjmem

/-- Structure of a successful seed step: all 27 wrapped candidate indices
were in range, the seed matched exactly one survivor (at position `p` of
the survivor list), the rows are the map values minus one of the survivors
(in stencil order), the columns are the seed's own compact position
repeated, and the weights are row `p` of the thresholded correlation
matrix. -/
lemma seedStep_ok_struct {s : Shape} {N : ℕ} {entries : List (ℕ × ℕ)}
    {zc : List (List ℝ)} {T : ℕ} {t : ℝ} {seed : ℕ} {r c : List ℕ} {w : List ℝ}
    (h : seedStep s N entries zc T t seed = Except.ok (r, c, w)) :
    ∃ p, (∀ f ∈ stencilFlats s seed, 0 ≤ wrapIdx N f ∧ wrapIdx N f < (N : ℤ)) ∧
      nndxOf seed ((stencilFlats s seed).filter
        (fun f => decide (cscValue entries (wrapIdx N f) ≠ 0))) = [p] ∧
      r = ((stencilFlats s seed).filter
        (fun f => decide (cscValue entries (wrapIdx N f) ≠ 0))).map
          (fun f => cscValue entries (wrapIdx N f) - 1) ∧
      c = List.replicate r.length (r.getD p 0) ∧
      w = (weightsOf zc T t r).getD p [] := by
  unfold seedStep at h
  cases hl : lookupAll N entries (stencilFlats s seed) with
  | error e =>
    rw [hl] at h
    replace h : (Except.error e : Except String (List ℕ × List ℕ × List ℝ))
        = Except.ok (r, c, w) := h
    cases h
  | ok vals =>
    rw [hl] at h
    replace h : seedEmit zc T t seed (stencilFlats s seed) vals = Except.ok (r, c, w) := h
    obtain ⟨hv, hb⟩ := lookupAll_ok hl
    subst hv
    unfold seedEmit at h
    rw [survOf_map] at h
    rw [List.map_map, List.map_map] at h
    have hfst : ((stencilFlats s seed).filter
          (fun f => decide (cscValue entries (wrapIdx N f) ≠ 0))).map
        ((fun p => p.1) ∘ (fun f => (f, cscValue entries (wrapIdx N f)))) =
        (stencilFlats s seed).filter
          (fun f => decide (cscValue entries (wrapIdx N f) ≠ 0)) := by
      exact List.map_id' _
    rw [hfst] at h
    split at h
    next p heq =>
      rw [Except.ok.injEq, Prod.mk.injEq, Prod.mk.injEq] at h
      obtain ⟨h1, h2, h3⟩ := h
      exact ⟨p, hb, heq, h1.symm, by rw [← h2, h1], by rw [← h3, h1]⟩
    next heq hne => cases h

/-- Element-wise origin of a successful `mapM` over `Except`. -/
lemma mapM_ok_mem {α β : Type} {f : α → Except String β} :
    ∀ {l : List α} {rs : List β}, l.mapM f = Except.ok rs →
      ∀ r ∈ rs, ∃ a ∈ l, f a = Except.ok r := by
  intro l
  induction l with
  | nil =>
    intro rs h r hr
    rw [List.mapM_nil] at h
    injection h with h2
    subst h2
    cases hr
  | cons a tl ih =>
    intro rs h r hr
    rw [List.mapM_cons] at h
    cases hfa : f a with
    | error e =>
      rw [hfa] at h
      simp only [bind, Except.bind] at h
      cases h
    | ok b =>
      rw [hfa] at h
      cases htl : tl.mapM f with
      | error e =>
        rw [htl] at h
        simp only [bind, Except.bind, Functor.map, Except.map] at h
        cases h
      | ok bs =>
        rw [htl] at h
        simp only [bind, Except.bind, Functor.map, Except.map, pure, Except.pure,
          Except.ok.injEq] at h
        subst h
        rcases List.mem_cons.mp hr with hrb | hrbs
        · exact ⟨a, List.mem_cons_self a tl, hrb ▸ hfa⟩
        · rcases ih htl r hrbs with ⟨a2, ha2, hfa2⟩
          exact ⟨a2, List.mem_cons_of_mem a ha2, hfa2⟩

/-- Structure of a successful full run: the per-seed results exist and the
output vector is their concatenated rows, columns and weights. -/
lemma pipeline_ok {s : Shape} {m : List ℤ} {d : List (List ℝ)} {t : ℝ} {out : List ℝ}
    (h : makeLocalConnectivityScorr s m d t = Except.ok out) :
    ∃ results, (ivO s m d).mapM (fun v => seedStep s (Npix s) (entriesO s m d)
        (zcOf s m d) d.length t v) = Except.ok results ∧
      out = (((results.map (fun x => x.1)).flatten).map (fun n => (Nat.cast n : ℝ)))
        ++ (((results.map (fun x => x.2.1)).flatten).map (fun n => (Nat.cast n : ℝ)))
        ++ (results.map (fun x => x.2.2)).flatten := by
  unfold makeLocalConnectivityScorr at h
  cases hm : (ivO s m d).mapM (fun v => seedStep s (Npix s) (entriesO s m d)
      (zcOf s m d) d.length t v) with
  | error e => rw [hm] at h; cases h
  | ok results =>
    rw [hm] at h
    injection h with h2
    exact ⟨results, rfl, h2.symm⟩

/-! ### The threshold law -/

/-- Thresholding sends a value to 0 or leaves it at or above the
threshold. -/
lemma threshClip_eq_zero_or_ge (t y : ℝ) :
    threshClip t y = 0 ∨ t ≤ threshClip t y := by
  unfold threshClip
  by_cases h : y < t
  · left; rw [if_pos h]
  · right; rw [if_neg h]; exact not_lt.mp h

/-- A value at or above the threshold passes through unchanged. -/
lemma threshClip_of_ge {t y : ℝ} (h : t ≤ y) : threshClip t y = y := by
  unfold threshClip
  exact if_neg (not_lt.mpr h)

/-- Every entry of an emitted weight row is 0 or at least the threshold. -/
lemma weightsOf_mem {zc : List (List ℝ)} {T : ℕ} {t : ℝ} {ondx : List ℕ} {p : ℕ} {x : ℝ}
    (hx : x ∈ (weightsOf zc T t ondx).getD p []) : x = 0 ∨ t ≤ x := by
  unfold weightsOf at hx
  by_cases hp : p < ((corrcoef ((ondx.map (fun q => zc.getD q [])).map
      (fun col => fcMap zc T col))).map (fun row => row.map (fun w => threshClip t w))).length
  · rw [List.getD_eq_getElem _ _ hp] at hx
    rw [List.getElem_map] at hx
    rcases List.mem_map.mp hx with ⟨y, _, hxy⟩
    rcases threshClip_eq_zero_or_ge t y with h0 | hge
    · left; rw [← hxy, h0]
    · right; rw [← hxy]; exact hge
  · rw [List.getD_eq_default _ _ (le_of_not_lt hp)] at hx
    cases hx

/-- The emitted weight list of one seed obeys the threshold law. -/
lemma seedStep_weights {s : Shape} {N : ℕ} {entries : List (ℕ × ℕ)} {zc : List (List ℝ)}
    {T : ℕ} {t : ℝ} {seed : ℕ} {r c : List ℕ} {w : List ℝ}
    (h : seedStep s N entries zc T t seed = Except.ok (r, c, w)) :
    ∀ x ∈ w, x = 0 ∨ t ≤ x := by
  rcases seedStep_ok_struct h with ⟨p, _, _, _, _, hw⟩
  intro x hx
  exact weightsOf_mem (hw ▸ hx)

/-- The weight matrix has one row per survivor. -/
lemma weightsOf_length (zc : List (List ℝ)) (T : ℕ) (t : ℝ) (ondx : List ℕ) :
    (weightsOf zc T t ondx).length = ondx.length := by
  unfold weightsOf corrcoef
  simp [List.length_map]

/-- Each in-range weight row has one entry per survivor. -/
lemma weightsOf_row_length (zc : List (List ℝ)) (T : ℕ) (t : ℝ) (ondx : List ℕ)
    {p : ℕ} (hp : p < ondx.length) :
    ((weightsOf zc T t ondx).getD p []).length = ondx.length := by
  have h1 : p < (weightsOf zc T t ondx).length := by
    rw [weightsOf_length]; exact hp
  rw [List.getD_eq_getElem _ _ h1]
  unfold weightsOf corrcoef
  simp [List.length_map]

/-- Rows, columns and weights of one seed have equal lengths. -/
lemma seedStep_lengths {s : Shape} {N : ℕ} {entries : List (ℕ × ℕ)} {zc : List (List ℝ)}
    {T : ℕ} {t : ℝ} {seed : ℕ} {r c : List ℕ} {w : List ℝ}
    (h : seedStep s N entries zc T t seed = Except.ok (r, c, w)) :
    c.length = r.length ∧ w.length = r.length := by
  rcases seedStep_ok_struct h with ⟨p, _, hn, hr, hc, hw⟩
  have hplt : p < r.length := by
    have hp1 := (nndxOf_single hn).1
    rw [hr, List.length_map]
    exact hp1
  constructor
  · rw [hc, List.length_replicate]
  · rw [hw, weightsOf_row_length _ _ _ _ hplt]

/-- Concatenated per-seed segments have matching lengths. -/
lemma flatten_length_eq (results : List (List ℕ × List ℕ × List ℝ))
    (h : ∀ x ∈ results, x.2.1.length = x.1.length ∧ x.2.2.length = x.1.length) :
    ((results.map (fun x => x.2.1)).flatten).length
        = ((results.map (fun x => x.1)).flatten).length ∧
      ((results.map (fun x => x.2.2)).flatten).length
        = ((results.map (fun x => x.1)).flatten).length := by
  induction results with
  | nil => simp
  | cons a tl ih =>
    simp only [List.map_cons, List.flatten_cons, List.length_append]
    obtain ⟨h1, h2⟩ := h a (List.mem_cons_self a tl)
    obtain ⟨ih1, ih2⟩ := ih (fun x hx => h x (List.mem_cons_of_mem a hx))
    omega

/-- Claim C3: the output vector splits into equally long row, column and
weight segments, every emitted weight is either 0 or at least the
caller-supplied threshold (so no weight lies strictly between 0 and the
threshold), and the thresholding step leaves any correlation at or above
the threshold — in particular one exactly equal to it — unchanged. -/
theorem threshold_law (s : Shape) (m : List ℤ) (d : List (List ℝ)) (t : ℝ)
    (out : List ℝ) (h : makeLocalConnectivityScorr s m d t = Except.ok out) :
    ∃ ri rj rw2 : List ℝ, out = ri ++ rj ++ rw2 ∧ ri.length = rw2.length ∧
      rj.length = rw2.length ∧ (∀ x ∈ rw2, x = 0 ∨ t ≤ x) ∧
      (∀ x : ℝ, t ≤ x → threshClip t x = x) := by
  rcases pipeline_ok h with ⟨results, hres, hout⟩
  have hlen : ∀ x ∈ results, x.2.1.length = x.1.length ∧ x.2.2.length = x.1.length := by
    intro x hx
    rcases mapM_ok_mem hres x hx with ⟨v, _, hstep⟩
    rcases x with ⟨r, c, w⟩
    exact seedStep_lengths hstep
  obtain ⟨hl1, hl2⟩ := flatten_length_eq results hlen
  have hcast : ∀ l : List ℕ, (List.map (fun n => (Nat.cast n : ℝ)) l).length = l.length :=
    fun l => List.length_map _ _
  refine ⟨_, _, _, hout, ?_, ?_, ?_, fun x hx => threshClip_of_ge hx⟩
  · rw [hcast]
    omega
  · rw [hcast]
    omega
  · intro x hx
    rcases List.mem_flatten.mp hx with ⟨wl, hwl, hxw⟩
    rcases List.mem_map.mp hwl with ⟨res, hres2, hwres⟩
    rcases mapM_ok_mem hres res hres2 with ⟨v, _, hstep⟩
    rcases res with ⟨r, c, w⟩
    have hxw2 : x ∈ w := by
      have : w = wl := hwres
      rw [this]
      exact hxw
    exact seedStep_weights hstep x hxw2

/-! ### Variance and z-score lemmas -/

/-- Sums of squares are non-negative. -/
lemma sum_sq_nonneg (xs : List ℝ) (c : ℝ) :
    0 ≤ (xs.map (fun x => (x - c) ^ 2)).sum := by
  apply List.sum_nonneg
  intro y hy
  rcases List.mem_map.mp hy with ⟨x, _, hx⟩
  rw [← hx]
  positivity

/-- The population variance is non-negative. -/
lemma var0_nonneg (xs : List ℝ) : 0 ≤ var0 xs := by
  unfold var0
  exact div_nonneg (sum_sq_nonneg xs _) (by positivity)

/-- A list of non-negative reals with zero sum is all zeros. -/
lemma list_sum_zero_of_nonneg : ∀ {l : List ℝ}, (∀ y ∈ l, 0 ≤ y) → l.sum = 0 →
    ∀ y ∈ l, y = 0 := by
  intro l
  induction l with
  | nil => intro _ _ y hy; cases hy
  | cons a tl ih =>
    intro hnn hsum y hy
    have hta : 0 ≤ a := hnn a (List.mem_cons_self a tl)
    have htl : 0 ≤ tl.sum := List.sum_nonneg (fun z hz => hnn z (List.mem_cons_of_mem a hz))
    rw [List.sum_cons] at hsum
    have ha0 : a = 0 := by linarith
    have hts : tl.sum = 0 := by linarith
    rcases List.mem_cons.mp hy with rfl | hytl
    · exact ha0
    · exact ih (fun z hz => hnn z (List.mem_cons_of_mem a hz)) hts y hytl

/-- A zero-variance column is constant at its mean. -/
lemma eq_mean_of_var0_eq_zero {xs : List ℝ} (h : var0 xs = 0) :
    ∀ x ∈ xs, x = meanR xs := by
  intro x hx
  have hne : xs ≠ [] := by rintro rfl; cases hx
  have hlen : (0 : ℝ) < (xs.length : ℝ) := by
    exact_mod_cast List.length_pos.mpr hne
  unfold var0 at h
  have hsum : (xs.map (fun x => (x - meanR xs) ^ 2)).sum = 0 := by
    rcases div_eq_zero_iff.mp h with h2 | h2
    · exact h2
    · exact absurd h2 (by positivity)
  have hterm : (x - meanR xs) ^ 2 = 0 := by
    refine list_sum_zero_of_nonneg ?_ hsum _ (List.mem_map_of_mem _ hx)
    intro y hy
    rcases List.mem_map.mp hy with ⟨z, _, hz⟩
    rw [← hz]
    positivity
  have := pow_eq_zero_iff (n := 2) (by norm_num) |>.mp hterm
  linarith [sub_eq_zero.mp this]

/-- Z-scoring a zero-variance column yields the all-zero column (this is the
`isnan` substitution at source line 120: every entry is `0 / 0`). -/
lemma zscore_of_var0_eq_zero {xs : List ℝ} (h : var0 xs = 0) :
    zscore xs = List.replicate xs.length 0 := by
  unfold zscore
  have hz : ∀ x ∈ xs, (x - meanR xs) / std0 xs = 0 := by
    intro x hx
    rw [eq_mean_of_var0_eq_zero h x hx]
    simp
  calc xs.map (fun x => (x - meanR xs) / std0 xs)
      = xs.map (fun _ => (0 : ℝ)) := List.map_congr_left hz
    _ = List.replicate xs.length 0 := List.map_const' xs 0

/-- The all-zero column has zero variance. -/
lemma var0_replicate_zero (n : ℕ) : var0 (List.replicate n (0 : ℝ)) = 0 := by
  unfold var0 meanR
  simp [List.sum_replicate, List.map_replicate]

/-- The z-scored variance filter cannot revive a zero-variance column. -/
lemma var0_zscore_zero {xs : List ℝ} (h : var0 xs = 0) : var0 (zscore xs) = 0 := by
  rw [zscore_of_var0_eq_zero h, var0_replicate_zero]

/-- A column passing the (z-scored) variance filter had non-zero raw
variance. -/
lemma raw_var_ne_zero {xs : List ℝ} (h : var0 (zscore xs) ≠ 0) : var0 xs ≠ 0 :=
  fun h0 => h (var0_zscore_zero h0)

/-- `getD` at an in-range position is a member. -/
lemma getD_mem {l : List ℕ} {j : ℕ} (hj : j < l.length) : l.getD j 0 ∈ l := by
  rw [List.getD_eq_getElem _ _ hj]
  exact List.getElem_mem hj

/-- The j-th z-scored column is the z-score of the j-th in-mask voxel's raw
time course. -/
lemma zcOf_getD (s : Shape) (m : List ℤ) (d : List (List ℝ)) {j : ℕ}
    (hj : j < (iv0Of s m).length) :
    (zcOf s m d).getD j [] = zscore (colOf d ((iv0Of s m).getD j 0)) := by
  unfold zcOf zcolsOf
  rw [List.getD_eq_getElem _ _ (by rw [List.length_map]; exact hj), List.getElem_map,
    List.getD_eq_getElem _ _ hj]

/-! ### The retained-set invariant -/

/-- Claim C8: every retained flat index is in-mask and has non-zero raw
time-course variance; no retained index repeats; and each emitted row or
column value is the compact in-mask position of a retained voxel, so a
voxel dropped by the variance filter is referenced by no emitted edge as a
row, a column, or a neighbour. -/
theorem retainedSet_invariant (s : Shape) (m : List ℤ) (d : List (List ℝ)) (t : ℝ) :
    (∀ v ∈ ivO s m d, m.getD v 0 ≠ 0 ∧ var0 (colOf d v) ≠ 0) ∧
    (ivO s m d).Nodup ∧
    (∀ seed r c w, seedStep s (Npix s) (entriesO s m d) (zcOf s m d) d.length t seed
        = Except.ok (r, c, w) →
      (∀ x ∈ r, x ∈ vndxO s m d ∧ (iv0Of s m).getD x 0 ∈ ivO s m d) ∧
      (∀ x ∈ c, x ∈ vndxO s m d ∧ (iv0Of s m).getD x 0 ∈ ivO s m d)) := by
  refine ⟨?_, ivO_nodup s m d, ?_⟩
  · intro v hv
    refine ⟨(mem_inmask.mp (mem_ivO s m d hv)).2, ?_⟩
    unfold ivO ivFinal at hv
    rcases List.mem_map.mp hv with ⟨j, hj, hval⟩
    have hjlt : j < (iv0Of s m).length := vndxO_lt s m d j hj
    have hvar : var0 ((zcOf s m d).getD j []) ≠ 0 := by
      unfold vndxO at hj
      exact (mem_vndx.mp hj).2
    rw [zcOf_getD s m d hjlt] at hvar
    rw [← hval]
    exact raw_var_ne_zero hvar
  · intro seed r c w h
    have hrows : ∀ x ∈ r, x ∈ vndxO s m d ∧ (iv0Of s m).getD x 0 ∈ ivO s m d := by
      intro x hx
      rcases seedStep_ok_struct h with ⟨p, _, _, hr, _, _⟩
      rw [hr] at hx
      rcases List.mem_map.mp hx with ⟨f, hf, hval⟩
      have hne := of_decide_eq_true (List.mem_filter.mp hf).2
      rcases cscValue_inv s m d hne with ⟨j, hj, _, hval2⟩
      have hxval : x = (vndxO s m d).getD j 0 := by
        rw [← hval, hval2]
        omega
      refine ⟨hxval ▸ getD_mem hj, ?_⟩
      rw [hxval]
      unfold ivO ivFinal
      exact List.mem_map_of_mem _ (getD_mem hj)
    refine ⟨hrows, ?_⟩
    intro x hx
    rcases seedStep_ok_struct h with ⟨p, _, hn, hr, hc, _⟩
    rw [hc] at hx
    rcases List.mem_replicate.mp hx with ⟨_, rfl⟩
    have hplt : p < r.length := by
      have hp1 := (nndxOf_single hn).1
      rw [hr, List.length_map]
      exact hp1
    exact hrows _ (getD_mem hplt)

/-! ### Compact-position structure of the emitted triplets -/

/-- Wrapping leaves a natural flat index unchanged. -/
lemma wrapIdx_natCast (N n : ℕ) : wrapIdx N ((n : ℕ) : ℤ) = (n : ℤ) := by
  unfold wrapIdx
  rw [if_neg (not_lt.mpr (Int.natCast_nonneg n))]

/-- Every emitted row value of a seed step run on the pipeline's sparse
map is a member of `vndx` (a compact in-mask position of a retained
voxel). -/
lemma rows_mem_vndx {s : Shape} {m : List ℤ} {d : List (List ℝ)} {t : ℝ}
    {seed : ℕ} {r c : List ℕ} {w : List ℝ}
    (h : seedStep s (Npix s) (entriesO s m d) (zcOf s m d) d.length t seed
      = Except.ok (r, c, w)) :
    ∀ x ∈ r, x ∈ vndxO s m d := by
  intro x hx
  rcases seedStep_ok_struct h with ⟨p, _, _, hr, _, _⟩
  rw [hr] at hx
  rcases List.mem_map.mp hx with ⟨f, hf, hval⟩
  have hne := of_decide_eq_true (List.mem_filter.mp hf).2
  rcases cscValue_inv s m d hne with ⟨j, hj, _, hval2⟩
  have hxval : x = (vndxO s m d).getD j 0 := by
    rw [← hval, hval2]
    omega
  exact hxval ▸ getD_mem hj

/-- Claim C1 (amended): the emitted row entries are compact in-mask
positions (members of `vndx`, i.e. positions in the pre-pruning in-mask
sequence of retained voxels), and the emitted column entries are the
seed's own compact position `vndx[i]` repeated — not original flat voxel
indices. -/
theorem rowsAreCompact_amended (s : Shape) (m : List ℤ) (d : List (List ℝ)) (t : ℝ)
    (i : ℕ) (hi : i < (ivO s m d).length) (r c : List ℕ) (w : List ℝ)
    (h : seedStep s (Npix s) (entriesO s m d) (zcOf s m d) d.length t
        ((ivO s m d).getD i 0) = Except.ok (r, c, w)) :
    (∀ x ∈ r, x ∈ vndxO s m d) ∧
      c = List.replicate r.length ((vndxO s m d).getD i 0) := by
  refine ⟨rows_mem_vndx h, ?_⟩
  obtain ⟨p, hb, hn, hr, hc, hw⟩ := seedStep_ok_struct h
  obtain ⟨hp, hpv, huniq⟩ := nndxOf_single hn
  have hlen : (ivO s m d).length = (vndxO s m d).length := ivFinal_length _ _
  have hiv2 : i < (vndxO s m d).length := by omega
  have hrp : r.getD p 0 = (vndxO s m d).getD i 0 := by
    rw [hr]
    rw [List.getD_eq_getElem _ _ (by rw [List.length_map]; exact hp), List.getElem_map]
    have hfp : ((stencilFlats s ((ivO s m d).getD i 0)).filter
        (fun f => decide (cscValue (entriesO s m d) (wrapIdx (Npix s) f) ≠ 0)))[p]
          = ((((ivO s m d).getD i 0 : ℕ)) : ℤ) := by
      rw [← List.getD_eq_getElem _ 0 hp]
      exact hpv
    rw [hfp, wrapIdx_natCast, cscValue_at_retained s m d hiv2]
    omega
  rw [hc, hrp]

/-- Claim C6 (amended): the sparse mask map stores, at the j-th retained
flat index, the voxel's position in the PRE-pruning in-mask sequence plus
one (`vndx[j] + 1`); subtracting the +1 offset recovers the voxel's column
position in the in-mask matrix (`iv0[vndx[j]] = iv[j]`), not its position
in the final retained sequence. -/
theorem maskMap_amended (s : Shape) (m : List ℤ) (d : List (List ℝ)) (j : ℕ)
    (hj : j < (ivO s m d).length) :
    cscLookup (Npix s) (entriesO s m d) (((ivO s m d).getD j 0 : ℕ) : ℤ)
        = Except.ok ((vndxO s m d).getD j 0 + 1) ∧
      (iv0Of s m).getD ((vndxO s m d).getD j 0) 0 = (ivO s m d).getD j 0 := by
  have hlen : (ivO s m d).length = (vndxO s m d).length := ivFinal_length _ _
  have hjv : j < (vndxO s m d).length := by omega
  have hvlt : (ivO s m d).getD j 0 < Npix s := by
    have hmem : (ivO s m d).getD j 0 ∈ ivO s m d := getD_mem hj
    exact (mem_inmask.mp (mem_ivO s m d hmem)).1
  constructor
  · unfold cscLookup
    rw [wrapIdx_natCast]
    rw [if_pos ⟨Int.natCast_nonneg _, by exact_mod_cast hvlt⟩]
    rw [cscValue_at_retained s m d hjv]
  · conv_rhs => unfold ivO ivFinal
    have hjm : j < ((vndxO s m d).map (fun q => (iv0Of s m).getD q 0)).length := by
      rw [List.length_map]; exact hjv
    rw [List.getD_eq_getElem _ 0 hjm, List.getElem_map, List.getD_eq_getElem _ 0 hjv]

/-- Claim C7 (amended): the time-course matrix entering the FC product has
one column per PRE-pruning in-mask voxel, column j being the z-score of
voxel `iv0[j]`'s raw time course; a column dropped by the variance filter
stays in the matrix as an all-zero column; consequently every FC map is a
profile of length `|iv0|` — the full in-mask set, not the final retained
set. -/
theorem fcColumns_amended (s : Shape) (m : List ℤ) (d : List (List ℝ)) :
    (zcOf s m d).length = (iv0Of s m).length ∧
    (∀ j, j < (iv0Of s m).length →
      (zcOf s m d).getD j [] = zscore (colOf d ((iv0Of s m).getD j 0))) ∧
    (∀ j, j < (iv0Of s m).length → var0 (colOf d ((iv0Of s m).getD j 0)) = 0 →
      (zcOf s m d).getD j [] = List.replicate (colOf d ((iv0Of s m).getD j 0)).length 0) ∧
    (∀ col : List ℝ, (fcMap (zcOf s m d) d.length col).length = (iv0Of s m).length) := by
  refine ⟨zcolsOf_length d _, fun j hj => zcOf_getD s m d hj, ?_, ?_⟩
  · intro j hj hv
    rw [zcOf_getD s m d hj, zscore_of_var0_eq_zero hv]
  · intro col
    unfold fcMap
    rw [List.length_map]
    exact zcolsOf_length d _

/-! ### Survivor characterisation, empty mask, and totality of the lookup -/

/-- On the pipeline's sparse map, a candidate's stored value is non-zero
iff its wrapped flat index is a retained flat index. -/
lemma cscValue_ne_zero_iff (s : Shape) (m : List ℤ) (d : List (List ℝ)) (f : ℤ) :
    cscValue (entriesO s m d) (wrapIdx (Npix s) f) ≠ 0 ↔
      wrapIdx (Npix s) f ∈ (ivO s m d).map (fun v => ((v : ℕ) : ℤ)) := by
  constructor
  · intro hne
    rcases cscValue_inv s m d hne with ⟨j, hj, hwf, _⟩
    rw [hwf]
    have hlen : (ivO s m d).length = (vndxO s m d).length := ivFinal_length _ _
    exact List.mem_map_of_mem _ (getD_mem (by omega))
  · intro hmem
    rcases List.mem_map.mp hmem with ⟨v, hv, hval⟩
    rcases List.mem_iff_getElem.mp hv with ⟨j, hjlt, hget⟩
    have hlen : (ivO s m d).length = (vndxO s m d).length := ivFinal_length _ _
    have hjv : j < (vndxO s m d).length := by omega
    have hw : wrapIdx (Npix s) f = (((ivO s m d).getD j 0 : ℕ) : ℤ) := by
      rw [← hval, ← hget, List.getD_eq_getElem _ 0 hjlt]
    rw [hw, cscValue_at_retained s m d hjv]
    omega

/-- Claim C2 (amended): a stencil candidate survives the mask-index-map
filtering iff its flat index, after negative-index wrapping, is a retained
flat index; out-of-volume candidates are therefore not reliably excluded
(a wrapped or colliding candidate whose wrapped index is retained
survives), and the seed emits one row per such candidate. -/
theorem stencilFilter_amended (s : Shape) (m : List ℤ) (d : List (List ℝ)) (t : ℝ)
    (seed : ℕ) (r c : List ℕ) (w : List ℝ)
    (h : seedStep s (Npix s) (entriesO s m d) (zcOf s m d) d.length t seed
      = Except.ok (r, c, w)) :
    r.length = ((stencilFlats s seed).filter
      (fun f => decide (wrapIdx (Npix s) f ∈ (ivO s m d).map (fun v => ((v : ℕ) : ℤ))))).length := by
  rcases seedStep_ok_struct h with ⟨p, _, _, hr, _, _⟩
  rw [hr, List.length_map]
  congr 1
  refine List.filter_congr ?_
  intro f _
  rcases Bool.eq_false_or_eq_true (decide (wrapIdx (Npix s) f
      ∈ (ivO s m d).map (fun v => ((v : ℕ) : ℤ)))) with hb | hb
  · rw [hb]
    exact decide_eq_true ((cscValue_ne_zero_iff s m d f).mpr (of_decide_eq_true hb))
  · rw [hb]
    exact decide_eq_false
      (fun hc => of_decide_eq_false hb ((cscValue_ne_zero_iff s m d f).mp hc))

/-- Claim C9: with zero in-mask voxels the computation runs to completion
with no error and returns the empty output vector. -/
theorem emptyMask_ok (s : Shape) (m : List ℤ) (d : List (List ℝ)) (t : ℝ)
    (h : inmaskIndices (Npix s) m = []) :
    makeLocalConnectivityScorr s m d t = Except.ok [] := by
  have hiv0 : iv0Of s m = [] := h
  have hzc : zcOf s m d = [] := by unfold zcOf zcolsOf; rw [hiv0]; rfl
  have hvndx : vndxO s m d = [] := by unfold vndxO vndxOf; rw [hzc]; rfl
  have hiv : ivO s m d = [] := by unfold ivO ivFinal; rw [hvndx]; rfl
  unfold makeLocalConnectivityScorr
  rw [hiv]
  rfl

/-- Claim C10: for a retained seed whose x-coordinate is 0 or sx−1, some
stencil candidate's computed flat index falls outside `[0, Npix)`; the
sparse read is applied to all 27 candidates with no prior bounds guard, so
it is not total — an index at or past `Npix` (even after wrapping) raises
`IndexError`, while a negative index is wrapped to the end of the flat
index space instead of being rejected. -/
theorem lookup_not_total (s : Shape) (m : List ℤ) (d : List (List ℝ))
    (seed : ℕ) (hseed : seed ∈ ivO s m d)
    (hx : (indx_1dto3d seed s).1 = 0 ∨ (indx_1dto3d seed s).1 = s.1 - 1) :
    (∃ f ∈ stencilFlats s seed, f < 0 ∨ ((Npix s : ℕ) : ℤ) ≤ f) ∧
    (∀ f : ℤ, ((Npix s : ℕ) : ℤ) ≤ f →
      cscLookup (Npix s) (entriesO s m d) f
        = Except.error "IndexError: row index out of bounds") ∧
    (∀ f : ℤ, -((Npix s : ℕ) : ℤ) ≤ f → f < 0 →
      cscLookup (Npix s) (entriesO s m d) f
        = cscLookup (Npix s) (entriesO s m d) (f + (Npix s : ℕ))) := by
  have hseedN : seed < Npix s := (mem_inmask.mp (mem_ivO s m d hseed)).1
  have hNpos : 0 < Npix s := lt_of_le_of_lt (Nat.zero_le seed) hseedN
  have hApos : 0 < s.2.1 * s.2.2 := by
    rcases Nat.eq_zero_or_pos (s.2.1 * s.2.2) with h0 | hpos
    · exfalso
      have : Npix s = 0 := by unfold Npix; rw [Nat.mul_assoc, h0, Nat.mul_zero]
      omega
    · exact hpos
  refine ⟨?_, ?_, ?_⟩
  · rw [stencilFlats_eq]
    rcases hx with hx0 | hx1
    · refine ⟨(seed : ℤ) + indx_3dto1d (-1, -1, -1) s, ?_, ?_⟩
      · exact List.mem_map_of_mem _ (by unfold neighbors; simp)
      · left
        have hseedA : seed < s.2.1 * s.2.2 := by
          have : seed / (s.2.1 * s.2.2) = 0 := hx0
          exact (Nat.div_eq_zero_iff hApos).mp this
        unfold indx_3dto1d
        have hcast : ((seed : ℤ)) < ((s.2.1 * s.2.2 : ℕ) : ℤ) := by exact_mod_cast hseedA
        push_cast at hcast ⊢
        nlinarith [Int.natCast_nonneg s.2.2]
    · refine ⟨(seed : ℤ) + indx_3dto1d (1, 1, 1) s, ?_, ?_⟩
      · exact List.mem_map_of_mem _ (by unfold neighbors; simp)
      · right
        have hs1pos : 0 < s.1 := by
          rcases Nat.eq_zero_or_pos s.1 with h0 | hpos
          · exfalso
            have : Npix s = 0 := by unfold Npix; rw [h0, Nat.zero_mul, Nat.zero_mul]
            omega
          · exact hpos
        have hdiv : seed / (s.2.1 * s.2.2) = s.1 - 1 := hx1
        have hge : (s.1 - 1) * (s.2.1 * s.2.2) ≤ seed := by
          rw [← hdiv]
          exact Nat.div_mul_le_self seed _
        have hsplit : (s.1 - 1) * (s.2.1 * s.2.2) + (s.2.1 * s.2.2) = Npix s := by
          unfold Npix
          rw [Nat.mul_assoc]
          rw [Nat.sub_one_mul]
          exact Nat.sub_add_cancel (Nat.le_mul_of_pos_left _ hs1pos)
        unfold indx_3dto1d
        have hgeZ : (((s.1 - 1) * (s.2.1 * s.2.2) : ℕ) : ℤ) ≤ (seed : ℤ) := by
          exact_mod_cast hge
        have hsplitZ : (((s.1 - 1) * (s.2.1 * s.2.2) : ℕ) : ℤ) + ((s.2.1 * s.2.2 : ℕ) : ℤ)
            = ((Npix s : ℕ) : ℤ) := by exact_mod_cast hsplit
        push_cast at hgeZ hsplitZ ⊢
        nlinarith [Int.natCast_nonneg s.2.2]
  · intro f hf
    unfold cscLookup wrapIdx
    have hfn : ¬ f < 0 := by
      have : (0 : ℤ) ≤ ((Npix s : ℕ) : ℤ) := Int.natCast_nonneg _
      omega
    rw [if_neg hfn, if_neg (by omega)]
  · intro f hlo hhi
    have hwrap1 : wrapIdx (Npix s) f = f + ((Npix s : ℕ) : ℤ) := by
      unfold wrapIdx
      rw [if_pos hhi]
    have hwrap2 : wrapIdx (Npix s) (f + ((Npix s : ℕ) : ℤ)) = f + ((Npix s : ℕ) : ℤ) := by
      unfold wrapIdx
      rw [if_neg (show ¬ f + ((Npix s : ℕ) : ℤ) < 0 by omega)]
    unfold cscLookup
    rw [hwrap1, hwrap2]

/-! ### The self-edge -/

/-- Wrapping leaves a non-negative index unchanged. -/
lemma wrapIdx_of_nonneg {N : ℕ} {f : ℤ} (h : 0 ≤ f) : wrapIdx N f = f := by
  unfold wrapIdx
  rw [if_neg (not_lt.mpr h)]

/-- Wrapping adds the axis length to a negative index. -/
lemma wrapIdx_of_neg {N : ℕ} {f : ℤ} (h : f < 0) : wrapIdx N f = f + (N : ℤ) := by
  unfold wrapIdx
  rw [if_pos h]

/-- `vndx` positions with equal values coincide. -/
lemma vndx_getD_inj (s : Shape) (m : List ℤ) (d : List (List ℝ)) {a b : ℕ}
    (ha : a < (vndxO s m d).length) (hb : b < (vndxO s m d).length)
    (h : (vndxO s m d).getD a 0 = (vndxO s m d).getD b 0) : a = b := by
  rw [List.getD_eq_getElem _ 0 ha, List.getD_eq_getElem _ 0 hb] at h
  exact (List.Nodup.getElem_inj_iff (vndx_nodup _)).mp h

/-- The (ddof-1) self-covariance of a row is non-negative. -/
lemma covEntry_self_nonneg (x : List ℝ) : 0 ≤ covEntry x x := by
  unfold covEntry
  rcases Nat.eq_zero_or_pos x.length with h0 | hpos
  · have hx : x = [] := List.length_eq_zero.mp h0
    subst hx
    simp
  · apply div_nonneg
    · apply List.sum_nonneg
      intro y hy
      rcases List.mem_map.mp hy with ⟨q, hq, hval⟩
      rcases List.mem_iff_getElem.mp hq with ⟨j, hj, hq2⟩
      have hjx : j < x.length := by
        rw [List.length_zip] at hj
        omega
      have hqq : q = (x[j], x[j]) := by
        rw [← hq2]
        exact List.getElem_zip
      rw [← hval, hqq]
      exact mul_self_nonneg _
    · have h1 : (1 : ℝ) ≤ (x.length : ℝ) := by exact_mod_cast hpos
      linarith

/-- The diagonal of `corrcoef` is 1, or 0 (the NaN substitution) when the
row's self-covariance vanishes. -/
lemma corrcoef_diag (rows : List (List ℝ)) {p : ℕ} (hp : p < rows.length) :
    ((corrcoef rows).getD p []).getD p 0
      = (if covEntry (rows.getD p []) (rows.getD p []) = 0 then 0 else 1) := by
  unfold corrcoef
  have hp1 : p < (rows.map (fun x => rows.map (fun y =>
      covEntry x y / (Real.sqrt (covEntry x x) * Real.sqrt (covEntry y y))))).length := by
    rw [List.length_map]
    exact hp
  rw [List.getD_eq_getElem _ [] hp1, List.getElem_map]
  have hp2 : p < (rows.map (fun y =>
      covEntry rows[p] y / (Real.sqrt (covEntry rows[p] rows[p]) * Real.sqrt (covEntry y y)))).length := by
    rw [List.length_map]
    exact hp
  rw [List.getD_eq_getElem _ 0 hp2, List.getElem_map]
  rw [List.getD_eq_getElem rows [] hp]
  by_cases hc : covEntry rows[p] rows[p] = 0
  · rw [if_pos hc, hc]
    simp
  · rw [if_neg hc]
    have hpos : 0 < covEntry rows[p] rows[p] :=
      lt_of_le_of_ne (covEntry_self_nonneg _) (Ne.symm hc)
    rw [Real.mul_self_sqrt (le_of_lt hpos)]
    exact div_self hc

/-- The self-weight emitted for the survivor at position `p`: the
thresholded diagonal of the correlation matrix of the FC maps. -/
lemma weightsOf_diag (zc : List (List ℝ)) (T : ℕ) (t : ℝ) (ondx : List ℕ)
    {p : ℕ} (hp : p < ondx.length) :
    ((weightsOf zc T t ondx).getD p []).getD p 0
      = threshClip t (if covEntry (fcMap zc T (zc.getD (ondx.getD p 0) []))
          (fcMap zc T (zc.getD (ondx.getD p 0) [])) = 0 then 0 else 1) := by
  have hfc : ((ondx.map (fun q => zc.getD q [])).map (fun col => fcMap zc T col)).getD p []
      = fcMap zc T (zc.getD (ondx.getD p 0) []) := by
    have hm1 : p < (ondx.map (fun q => zc.getD q [])).length := by
      rw [List.length_map]; exact hp
    have hm2 : p < ((ondx.map (fun q => zc.getD q [])).map (fun col => fcMap zc T col)).length := by
      rw [List.length_map]; exact hm1
    rw [List.getD_eq_getElem _ [] hm2, List.getElem_map, List.getElem_map,
      ← List.getD_eq_getElem ondx 0 hp]
  have hlenfc : ((ondx.map (fun q => zc.getD q [])).map (fun col => fcMap zc T col)).length
      = ondx.length := by
    rw [List.length_map, List.length_map]
  unfold weightsOf
  have hp3 : p < ((ondx.map (fun q => zc.getD q [])).map (fun col => fcMap zc T col)).length := by
    omega
  have hp4 : p < (corrcoef ((ondx.map (fun q => zc.getD q [])).map
      (fun col => fcMap zc T col))).length := by
    unfold corrcoef
    rw [List.length_map]
    exact hp3
  have hp5 : p < ((corrcoef ((ondx.map (fun q => zc.getD q [])).map
      (fun col => fcMap zc T col))).map (fun row => row.map (fun w => threshClip t w))).length := by
    rw [List.length_map]
    exact hp4
  rw [List.getD_eq_getElem _ [] hp5, List.getElem_map]
  have hrowlen : p < ((corrcoef ((ondx.map (fun q => zc.getD q [])).map
      (fun col => fcMap zc T col)))[p]).length := by
    unfold corrcoef
    rw [List.getElem_map, List.length_map]
    exact hp3
  have hp6 : p < (((corrcoef ((ondx.map (fun q => zc.getD q [])).map
      (fun col => fcMap zc T col)))[p]).map (fun w => threshClip t w)).length := by
    rw [List.length_map]
    exact hrowlen
  rw [List.getD_eq_getElem _ 0 hp6, List.getElem_map]
  have hdiag := corrcoef_diag ((ondx.map (fun q => zc.getD q [])).map
      (fun col => fcMap zc T col)) hp3
  rw [List.getD_eq_getElem _ [] hp4, List.getD_eq_getElem _ 0 hrowlen, hfc] at hdiag
  rw [hdiag]

/-- Filtering a zip of rows against a constant column keeps exactly the one
position whose row value matches. -/
lemma filter_zip_unique : ∀ (r : List ℕ) (w : List ℝ) (sc : ℕ) (p : ℕ),
    p < r.length → w.length = r.length → r.getD p 0 = sc →
    (∀ j, j < r.length → r.getD j 0 = sc → j = p) →
    ((r.zip ((List.replicate r.length sc).zip w)).filter (fun q => decide (q.1 = q.2.1)))
      = [(sc, sc, w.getD p 0)] := by
  intro r
  induction r with
  | nil =>
    intro w sc p hp
    exact absurd hp (Nat.not_lt_zero p)
  | cons a r2 ih =>
    intro w sc p hp hw hpv huniq
    cases w with
    | nil => simp at hw
    | cons w0 w2 =>
      rw [List.length_cons, List.replicate_succ, List.zip_cons_cons, List.zip_cons_cons]
      have hw2 : w2.length = r2.length := by
        rw [List.length_cons, List.length_cons] at hw
        omega
      cases p with
      | zero =>
        have ha : a = sc := hpv
        rw [List.filter_cons_of_pos (by simp [ha])]
        have hrest : (r2.zip ((List.replicate r2.length sc).zip w2)).filter
            (fun q => decide (q.1 = q.2.1)) = [] := by
          rw [List.filter_eq_nil_iff]
          intro q hq
          rcases List.mem_iff_getElem.mp hq with ⟨j, hj, hq2⟩
          have hjr : j < r2.length := by
            rw [List.length_zip, List.length_zip, List.length_replicate] at hj
            omega
          have hjz : j < ((List.replicate r2.length sc).zip w2).length := by
            rw [List.length_zip, List.length_replicate]
            omega
          have hjrep : j < (List.replicate r2.length sc).length := by
            rw [List.length_replicate]
            exact hjr
          have hjw : j < w2.length := by omega
          have hq3 : q = (r2[j], ((List.replicate r2.length sc).zip w2)[j]) := by
            rw [← hq2]
            exact List.getElem_zip
          have hq4 : ((List.replicate r2.length sc).zip w2)[j] = (sc, w2[j]) := by
            rw [List.getElem_zip, List.getElem_replicate]
          rw [hq3, hq4]
          simp only [decide_eq_true_eq]
          intro hcontra
          have hj1 : (a :: r2).getD (j + 1) 0 = sc := by
            rw [List.getD_cons_succ, List.getD_eq_getElem _ 0 hjr]
            exact hcontra
          have := huniq (j + 1) (by rw [List.length_cons]; omega) hj1
          omega
        rw [hrest, ha]
        rfl
      | succ p2 =>
        have hane : ¬ (a = sc) := by
          intro ha
          have := huniq 0 (by rw [List.length_cons]; omega) (by rw [List.getD_cons_zero]; exact ha)
          omega
        rw [List.filter_cons_of_neg (by simp [hane])]
        have hp2 : p2 < r2.length := by
          rw [List.length_cons] at hp
          omega
        have hpv2 : r2.getD p2 0 = sc := by
          rw [List.getD_cons_succ] at hpv
          exact hpv
        have huniq2 : ∀ j, j < r2.length → r2.getD j 0 = sc → j = p2 := by
          intro j hj hjv
          have := huniq (j + 1) (by rw [List.length_cons]; omega)
            (by rw [List.getD_cons_succ]; exact hjv)
          omega
        rw [ih w2 sc p2 hp2 hw2 hpv2 huniq2]
        rfl

/-- Membership in the candidate list exposes the stencil offset. -/
lemma mem_stencilFlats {s : Shape} {seed : ℕ} {f : ℤ} (h : f ∈ stencilFlats s seed) :
    ∃ dd ∈ neighbors, f = (seed : ℤ) + indx_3dto1d dd s := by
  rw [stencilFlats_eq] at h
  rcases List.mem_map.mp h with ⟨dd, hdd, hval⟩
  exact ⟨dd, hdd, hval.symm⟩

set_option maxHeartbeats 2000000 in
/-- Claim C4 (amended): a successful seed step for the i-th retained voxel
emits exactly one edge whose row equals its column; that edge carries the
seed's compact in-mask position `vndx[i]` (not the seed's flat voxel
index) on both sides, and its weight is the thresholded diagonal
correlation — `threshClip t 1` when the seed's FC-map row has non-zero
self-covariance (so 1 for thresholds at most 1, and 0 when the threshold
exceeds 1), and 0 (the NaN substitution) when that self-covariance
vanishes, as happens when the seed is the only retained voxel. -/
theorem selfEdge_amended (s : Shape) (m : List ℤ) (d : List (List ℝ)) (t : ℝ)
    (i : ℕ) (hi : i < (ivO s m d).length) (r c : List ℕ) (w : List ℝ)
    (h : seedStep s (Npix s) (entriesO s m d) (zcOf s m d) d.length t
        ((ivO s m d).getD i 0) = Except.ok (r, c, w)) :
    ((r.zip (c.zip w)).filter (fun q => decide (q.1 = q.2.1)))
      = [((vndxO s m d).getD i 0, (vndxO s m d).getD i 0,
          threshClip t (if covEntry
              (fcMap (zcOf s m d) d.length ((zcOf s m d).getD ((vndxO s m d).getD i 0) []))
              (fcMap (zcOf s m d) d.length ((zcOf s m d).getD ((vndxO s m d).getD i 0) []))
              = 0
            then 0 else 1))] := by
  obtain ⟨p, hb, hn, hr, hc, hw⟩ := seedStep_ok_struct h
  obtain ⟨hp, hpv, huniq⟩ := nndxOf_single hn
  have hlen : (ivO s m d).length = (vndxO s m d).length := ivFinal_length _ _
  have hiv2 : i < (vndxO s m d).length := by omega
  have hrlen : r.length = ((stencilFlats s ((ivO s m d).getD i 0)).filter
      (fun f => decide (cscValue (entriesO s m d) (wrapIdx (Npix s) f) ≠ 0))).length := by
    rw [hr, List.length_map]
  have hplt : p < r.length := by omega
  have hrp : r.getD p 0 = (vndxO s m d).getD i 0 := by
    rw [hr, List.getD_eq_getElem _ 0 (by rw [List.length_map]; exact hp), List.getElem_map]
    have hfp : ((stencilFlats s ((ivO s m d).getD i 0)).filter
        (fun f => decide (cscValue (entriesO s m d) (wrapIdx (Npix s) f) ≠ 0)))[p]
          = (((ivO s m d).getD i 0 : ℕ) : ℤ) := by
      rw [← List.getD_eq_getElem _ 0 hp]
      exact hpv
    rw [hfp, wrapIdx_natCast, cscValue_at_retained s m d hiv2]
    omega
  have hboundN : ((s.2.1 : ℤ) * s.2.2) + s.2.2 + 1 < ((Npix s : ℕ) : ℤ) := by
    obtain ⟨hmem1, hval1⟩ := last_offset_mem s
    have hmemf : (((ivO s m d).getD i 0 : ℕ) : ℤ) + indx_3dto1d (1, 1, 1) s
        ∈ stencilFlats s ((ivO s m d).getD i 0) := by
      rw [stencilFlats_eq]
      exact List.mem_map_of_mem _ hmem1
    have hbf := hb _ hmemf
    have hposf : (0 : ℤ) ≤ (((ivO s m d).getD i 0 : ℕ) : ℤ) + indx_3dto1d (1, 1, 1) s := by
      rw [hval1]
      have h1 : (0 : ℤ) ≤ (((ivO s m d).getD i 0 : ℕ) : ℤ) := Int.natCast_nonneg _
      have h2 : (0 : ℤ) ≤ ((s.2.1 : ℤ)) * s.2.2 := by positivity
      have h3 : (0 : ℤ) ≤ (s.2.2 : ℤ) := Int.natCast_nonneg _
      linarith
    rw [wrapIdx_of_nonneg hposf] at hbf
    have hlt := hbf.2
    rw [hval1] at hlt
    have h1 : (0 : ℤ) ≤ (((ivO s m d).getD i 0 : ℕ) : ℤ) := Int.natCast_nonneg _
    linarith
  have huniq2 : ∀ j, j < r.length → r.getD j 0 = (vndxO s m d).getD i 0 → j = p := by
    intro j hj hjv
    have hjL : j < ((stencilFlats s ((ivO s m d).getD i 0)).filter
        (fun f => decide (cscValue (entriesO s m d) (wrapIdx (Npix s) f) ≠ 0))).length := by
      omega
    have hrj : r.getD j 0 = cscValue (entriesO s m d) (wrapIdx (Npix s)
        (((stencilFlats s ((ivO s m d).getD i 0)).filter
          (fun f => decide (cscValue (entriesO s m d) (wrapIdx (Npix s) f) ≠ 0)))[j])) - 1 := by
      rw [hr, List.getD_eq_getElem _ 0 (by rw [List.length_map]; exact hjL), List.getElem_map]
    have hLj_mem := List.getElem_mem hjL
    have hLj_pred := of_decide_eq_true (List.mem_filter.mp hLj_mem).2
    rcases cscValue_inv s m d hLj_pred with ⟨j2, hj2, hwf, hval2⟩
    have hscj : (vndxO s m d).getD j2 0 = (vndxO s m d).getD i 0 := by
      rw [hrj, hval2] at hjv
      omega
    have hj2i : j2 = i := vndx_getD_inj s m d hj2 hiv2 hscj
    rw [hj2i] at hwf
    by_cases hneg : ((stencilFlats s ((ivO s m d).getD i 0)).filter
        (fun f => decide (cscValue (entriesO s m d) (wrapIdx (Npix s) f) ≠ 0)))[j] < 0
    · exfalso
      have hmemS := (List.mem_filter.mp hLj_mem).1
      rcases mem_stencilFlats hmemS with ⟨dd, hdd, hddval⟩
      have hoff := (offset_bounds s hdd).1
      have hwrapneg := wrapIdx_of_neg (N := Npix s) hneg
      rw [hwrapneg] at hwf
      have heq1 : indx_3dto1d dd s = -((Npix s : ℕ) : ℤ) := by linarith [hwf, hddval]
      linarith
    · have hwrappos := wrapIdx_of_nonneg (N := Npix s) (not_lt.mp hneg)
      rw [hwrappos] at hwf
      have hLgd : ((stencilFlats s ((ivO s m d).getD i 0)).filter
          (fun f => decide (cscValue (entriesO s m d) (wrapIdx (Npix s) f) ≠ 0))).getD j 0
            = ((((ivO s m d).getD i 0 : ℕ)) : ℤ) := by
        rw [List.getD_eq_getElem _ 0 hjL]
        exact hwf
      exact huniq j hjL hLgd
  have hwlen : w.length = r.length := (seedStep_lengths h).2
  have hc2 : c = List.replicate r.length ((vndxO s m d).getD i 0) := by
    rw [hc, hrp]
  have hfz := filter_zip_unique r w ((vndxO s m d).getD i 0) p hplt hwlen hrp huniq2
  rw [hc2, hfz]
  have hwp : w.getD p 0 = threshClip t (if covEntry
      (fcMap (zcOf s m d) d.length ((zcOf s m d).getD ((vndxO s m d).getD i 0) []))
      (fcMap (zcOf s m d) d.length ((zcOf s m d).getD ((vndxO s m d).getD i 0) []))
      = 0 then 0 else 1) := by
    rw [hw]
    have hdg := weightsOf_diag (zcOf s m d) d.length t r hplt
    rw [hrp] at hdg
    exact hdg
  rw [hwp]

/-! ### Evaluation of the concrete scenarios -/

/-- `getD` through a range-indexed table. -/
lemma getD_range_map {α : Type} (f : ℕ → α) (dflt : α) {v n : ℕ} (h : v < n) :
    (((List.range n).map f).getD v dflt) = f v := by
  rw [List.getD_eq_getElem _ _ (by rw [List.length_map, List.length_range]; exact h),
    List.getElem_map, List.getElem_range]

/-- `getD` through a constant table. -/
lemma getD_replicate {α : Type} {a dflt : α} {v n : ℕ} (h : v < n) :
    ((List.replicate n a).getD v dflt) = a := by
  rw [List.getD_eq_getElem _ _ (by rw [List.length_replicate]; exact h),
    List.getElem_replicate]

/-- Scenario A and E time course at any in-volume voxel. -/
lemma colA_13 : colOf dataA 13 = [0, 2] := by
  unfold colOf dataA
  rw [List.map_cons, List.map_cons, List.map_nil,
    getD_replicate (by norm_num), getD_replicate (by norm_num)]

/-- The two-point course `[0, 2]` z-scores to `[-1, 1]`. -/
lemma zscore_01 : zscore [(0 : ℝ), 2] = [-1, 1] := by
  have hm : meanR [(0 : ℝ), 2] = 1 := by
    unfold meanR
    norm_num
  have hv : var0 [(0 : ℝ), 2] = 1 := by
    unfold var0
    rw [hm]
    norm_num
  unfold zscore std0
  rw [hm, hv, Real.sqrt_one]
  norm_num

/-- The two-point course `[2, 0]` z-scores to `[1, -1]`. -/
lemma zscore_20 : zscore [(2 : ℝ), 0] = [1, -1] := by
  have hm : meanR [(2 : ℝ), 0] = 1 := by
    unfold meanR
    norm_num
  have hv : var0 [(2 : ℝ), 0] = 1 := by
    unfold var0
    rw [hm]
    norm_num
  unfold zscore std0
  rw [hm, hv, Real.sqrt_one]
  norm_num

/-- The constant course `[5, 5]` z-scores to the zero column. -/
lemma zscore_55 : zscore [(5 : ℝ), 5] = [0, 0] := by
  have hm : meanR [(5 : ℝ), 5] = 5 := by
    unfold meanR
    norm_num
  unfold zscore std0
  rw [hm]
  norm_num

/-- The five-point course of scenario D z-scores to
`[1/2, 1/2, 1/2, 1/2, -2]`. -/
lemma zscore_D : zscore [(1 : ℝ), 1, 1, 1, -4] = [1/2, 1/2, 1/2, 1/2, -2] := by
  have hm : meanR [(1 : ℝ), 1, 1, 1, -4] = 0 := by
    unfold meanR
    norm_num
  have hv : var0 [(1 : ℝ), 1, 1, 1, -4] = 4 := by
    unfold var0
    rw [hm]
    norm_num
  have hs4 : Real.sqrt 4 = 2 := by
    rw [show (4 : ℝ) = 2 ^ 2 by norm_num, Real.sqrt_sq (by norm_num : (0 : ℝ) ≤ 2)]
  unfold zscore std0
  rw [hm, hv, hs4]
  norm_num

/-- Variance of the z-scored column `[-1, 1]`. -/
lemma var0_m11 : var0 [(-1 : ℝ), 1] = 1 := by
  have hm : meanR [(-1 : ℝ), 1] = 0 := by
    unfold meanR
    norm_num
  unfold var0
  rw [hm]
  norm_num

/-- Variance of the z-scored column `[1, -1]`. -/
lemma var0_1m1 : var0 [(1 : ℝ), -1] = 1 := by
  have hm : meanR [(1 : ℝ), -1] = 0 := by
    unfold meanR
    norm_num
  unfold var0
  rw [hm]
  norm_num

/-- Variance of the zero column `[0, 0]`. -/
lemma var0_00 : var0 [(0 : ℝ), 0] = 0 := by
  have hm : meanR [(0 : ℝ), 0] = 0 := by
    unfold meanR
    norm_num
  unfold var0
  rw [hm]
  norm_num

/-- Variance of the z-scored scenario-D column. -/
lemma var0_zD : var0 [(1 : ℝ)/2, 1/2, 1/2, 1/2, -2] = 1 := by
  have hm : meanR [(1 : ℝ)/2, 1/2, 1/2, 1/2, -2] = 0 := by
    unfold meanR
    norm_num
  unfold var0
  rw [hm]
  norm_num

/-- Thresholding never changes a zero weight. -/
lemma threshClip_zero (t : ℝ) : threshClip t 0 = 0 := by
  unfold threshClip
  split <;> rfl

/-- Scenario A retained sequences. -/
lemma iv0A : iv0Of (3,3,3) maskA = [13] := by decide

/-- Scenario A z-scored columns. -/
lemma zcA : zcOf (3,3,3) maskA dataA = [[-1, 1]] := by
  unfold zcOf zcolsOf
  rw [iv0A, List.map_cons, List.map_nil, colA_13, zscore_01]

/-- Scenario A variance filter. -/
lemma vndxA : vndxO (3,3,3) maskA dataA = [0] := by
  unfold vndxO vndxOf
  rw [zcA]
  rw [show ([[(-1 : ℝ), 1]] : List (List ℝ)).length = 1 from rfl]
  rw [show List.range 1 = [0] from rfl]
  rw [List.filter_cons_of_pos, List.filter_nil]
  exact decide_eq_true (by simp only [List.getD_cons_zero]; rw [var0_m11]; norm_num)

/-- Scenario A final retained sequence. -/
lemma ivA : ivO (3,3,3) maskA dataA = [13] := by
  unfold ivO ivFinal
  rw [vndxA, iv0A]
  rfl

/-- Scenario A sparse map entries. -/
lemma entrA : entriesO (3,3,3) maskA dataA = [(13, 1)] := by
  unfold entriesO cscEntries
  rw [ivA, vndxA]
  rfl

/-- The 1×1 correlation matrix of the single FC row `[2]` is `[[0]]`: the
self-covariance over one observation is `0/0`, the float NaN, substituted
by 0. -/
lemma corr_single_2 : corrcoef [[(2 : ℝ)]] = [[0]] := by
  unfold corrcoef
  rw [List.map_cons, List.map_nil, List.map_cons, List.map_nil]
  have hcov : covEntry [(2 : ℝ)] [(2 : ℝ)] = 0 := by
    unfold covEntry meanR
    norm_num
  rw [hcov, Real.sqrt_zero]
  norm_num

/-- Scenario A emitted weight row: the single (NaN-substituted) self-weight
0, for any threshold. -/
lemma weightsA (t : ℝ) : (weightsOf [[-1, 1]] 2 t [0]).getD 0 [] = [0] := by
  unfold weightsOf
  have hfc : (([0] : List ℕ).map (fun q => ([[-1, 1]] : List (List ℝ)).getD q [])).map
      (fun col => fcMap [[-1, 1]] 2 col) = [[(2 : ℝ)]] := by
    rw [List.map_cons, List.map_nil, List.map_cons, List.map_nil]
    congr 1
    rw [List.getD_cons_zero]
    unfold fcMap dotR
    rw [List.map_cons, List.map_nil]
    norm_num
  rw [hfc, corr_single_2]
  rw [List.map_cons, List.map_nil, List.map_cons, List.map_nil, threshClip_zero]
  rfl

/-- Scenario A seed step: the sole triplet is (0, 0, 0) — row and column
are the seed's compact position 0 and the weight is the NaN-substituted
self-correlation 0. -/
lemma seedStepA (t : ℝ) : seedStep (3,3,3) 27 [(13, 1)] [[-1, 1]] 2 t 13
    = Except.ok ([0], [0], [0]) := by
  unfold seedStep
  rw [lookupAll_of_bounds (by decide)]
  show seedEmit [[-1, 1]] 2 t 13 (stencilFlats (3,3,3) 13)
      ((stencilFlats (3,3,3) 13).map (fun f => cscValue [(13, 1)] (wrapIdx 27 f)))
    = Except.ok ([0], [0], [0])
  unfold seedEmit
  rw [show nndxOf 13 ((survOf (stencilFlats (3,3,3) 13)
      ((stencilFlats (3,3,3) 13).map (fun f => cscValue [(13, 1)] (wrapIdx 27 f)))).map
        (fun p => p.1)) = [0] from by decide]
  rw [show (survOf (stencilFlats (3,3,3) 13) ((stencilFlats (3,3,3) 13).map
      (fun f => cscValue [(13, 1)] (wrapIdx 27 f)))).map (fun p => p.2 - 1) = [0] from by decide]
  show Except.ok (([0] : List ℕ), List.replicate ([0] : List ℕ).length (([0] : List ℕ).getD 0 0),
      (weightsOf [[-1, 1]] 2 t [0]).getD 0 []) = Except.ok ([0], [0], [0])
  rw [weightsA]
  rfl

/-- Scenario A full run: the output vector is `[0, 0, 0]`, for any
threshold. -/
lemma pipelineA (t : ℝ) : makeLocalConnectivityScorr (3,3,3) maskA dataA t
    = Except.ok [0, 0, 0] := by
  unfold makeLocalConnectivityScorr
  rw [ivA, entrA, zcA]
  rw [show (Npix (3,3,3)) = 27 from rfl, show dataA.length = 2 from rfl]
  simp only [List.mapM_cons, List.mapM_nil]
  rw [seedStepA]
  simp only [bind, Except.bind, Functor.map, Except.map, pure, Except.pure]
  norm_num

/-- Scenario B time course of voxel 13. -/
lemma colB_13 : colOf dataB 13 = [0, 2] := by
  unfold colOf dataB
  rw [List.map_cons, List.map_cons, List.map_nil,
    getD_range_map _ _ (by norm_num), getD_range_map _ _ (by norm_num)]
  norm_num

/-- Scenario B time course of voxel 14. -/
lemma colB_14 : colOf dataB 14 = [2, 0] := by
  unfold colOf dataB
  rw [List.map_cons, List.map_cons, List.map_nil,
    getD_range_map _ _ (by norm_num), getD_range_map _ _ (by norm_num)]
  norm_num

/-- Scenario B retained sequences. -/
lemma iv0B : iv0Of (3,3,3) maskB = [13, 14] := by decide

/-- Scenario B z-scored columns. -/
lemma zcB : zcOf (3,3,3) maskB dataB = [[-1, 1], [1, -1]] := by
  unfold zcOf zcolsOf
  rw [iv0B, List.map_cons, List.map_cons, List.map_nil, colB_13, colB_14,
    zscore_01, zscore_20]

/-- Scenario B variance filter. -/
lemma vndxB : vndxO (3,3,3) maskB dataB = [0, 1] := by
  unfold vndxO vndxOf
  rw [zcB]
  rw [show ([[(-1 : ℝ), 1], [1, -1]] : List (List ℝ)).length = 2 from rfl]
  rw [show List.range 2 = [0, 1] from rfl]
  rw [List.filter_cons_of_pos, List.filter_cons_of_pos, List.filter_nil]
  · exact decide_eq_true (by
      rw [show ([[(-1 : ℝ), 1], [1, -1]] : List (List ℝ)).getD 1 [] = [1, -1] from rfl,
        var0_1m1]
      norm_num)
  · exact decide_eq_true (by simp only [List.getD_cons_zero]; rw [var0_m11]; norm_num)

/-- Scenario B final retained sequence. -/
lemma ivB : ivO (3,3,3) maskB dataB = [13, 14] := by
  unfold ivO ivFinal
  rw [vndxB, iv0B]
  rfl

/-- Scenario B sparse map entries. -/
lemma entrB : entriesO (3,3,3) maskB dataB = [(13, 1), (14, 2)] := by
  unfold entriesO cscEntries
  rw [ivB, vndxB]
  rfl

/-- Scenario B FC map of voxel 13. -/
lemma fcB1 : fcMap [[-1, 1], [1, -1]] 2 [-1, 1] = [2, -2] := by
  unfold fcMap dotR
  rw [List.map_cons, List.map_cons, List.map_nil]
  norm_num

/-- Scenario B FC map of voxel 14. -/
lemma fcB2 : fcMap [[-1, 1], [1, -1]] 2 [1, -1] = [-2, 2] := by
  unfold fcMap dotR
  rw [List.map_cons, List.map_cons, List.map_nil]
  norm_num

/-- Self-covariance of the FC row `[2, -2]`. -/
lemma covB_xx : covEntry [(2 : ℝ), -2] [(2 : ℝ), -2] = 8 := by
  have hm : meanR [(2 : ℝ), -2] = 0 := by
    unfold meanR
    norm_num
  unfold covEntry
  rw [hm]
  norm_num

/-- Cross-covariance of the FC rows `[2, -2]` and `[-2, 2]`. -/
lemma covB_xy : covEntry [(2 : ℝ), -2] [(-2 : ℝ), 2] = -8 := by
  have hm1 : meanR [(2 : ℝ), -2] = 0 := by
    unfold meanR
    norm_num
  have hm2 : meanR [(-2 : ℝ), 2] = 0 := by
    unfold meanR
    norm_num
  unfold covEntry
  rw [hm1, hm2]
  norm_num

/-- Self-covariance of the FC row `[-2, 2]`. -/
lemma covB_yy : covEntry [(-2 : ℝ), 2] [(-2 : ℝ), 2] = 8 := by
  have hm : meanR [(-2 : ℝ), 2] = 0 := by
    unfold meanR
    norm_num
  unfold covEntry
  rw [hm]
  norm_num

/-- Scenario B emitted weight row of the seed: self-weight 1, neighbour
weight −1 clipped to 0 by the 0.3 threshold. -/
lemma weightsB : (weightsOf [[-1, 1], [1, -1]] 2 (3/10) [0, 1]).getD 0 [] = [1, 0] := by
  unfold weightsOf
  have hfc : (([0, 1] : List ℕ).map (fun q => ([[-1, 1], [1, -1]] : List (List ℝ)).getD q [])).map
      (fun col => fcMap [[-1, 1], [1, -1]] 2 col) = [[2, -2], [-2, 2]] := by
    simp only [List.map_cons, List.map_nil]
    rw [List.getD_cons_zero,
      show ([[(-1 : ℝ), 1], [1, -1]] : List (List ℝ)).getD 1 [] = [1, -1] from rfl,
      fcB1, fcB2]
  rw [hfc]
  unfold corrcoef
  simp only [List.map_cons, List.map_nil]
  rw [List.getD_cons_zero]
  rw [covB_xx, covB_xy, covB_yy]
  have h8 : Real.sqrt 8 * Real.sqrt 8 = 8 := Real.mul_self_sqrt (by norm_num)
  rw [h8]
  have h1 : (8 : ℝ) / 8 = 1 := by norm_num
  have h2 : (-8 : ℝ) / 8 = -1 := by norm_num
  rw [h1, h2]
  unfold threshClip
  norm_num

/-- Scenario B seed step at voxel 13: survivors 13 and 14 with compact
positions 0 and 1, columns the seed's position 0, weights `[1, 0]`. -/
lemma seedStepB : seedStep (3,3,3) 27 [(13, 1), (14, 2)] [[-1, 1], [1, -1]] 2 (3/10) 13
    = Except.ok ([0, 1], [0, 0], [1, 0]) := by
  unfold seedStep
  rw [lookupAll_of_bounds (by decide)]
  show seedEmit [[-1, 1], [1, -1]] 2 (3/10) 13 (stencilFlats (3,3,3) 13)
      ((stencilFlats (3,3,3) 13).map (fun f => cscValue [(13, 1), (14, 2)] (wrapIdx 27 f)))
    = Except.ok ([0, 1], [0, 0], [1, 0])
  unfold seedEmit
  rw [show nndxOf 13 ((survOf (stencilFlats (3,3,3) 13)
      ((stencilFlats (3,3,3) 13).map (fun f => cscValue [(13, 1), (14, 2)] (wrapIdx 27 f)))).map
        (fun p => p.1)) = [0] from by decide]
  rw [show (survOf (stencilFlats (3,3,3) 13) ((stencilFlats (3,3,3) 13).map
      (fun f => cscValue [(13, 1), (14, 2)] (wrapIdx 27 f)))).map (fun p => p.2 - 1)
      = [0, 1] from by decide]
  show Except.ok (([0, 1] : List ℕ),
      List.replicate ([0, 1] : List ℕ).length (([0, 1] : List ℕ).getD 0 0),
      (weightsOf [[-1, 1], [1, -1]] 2 (3/10) [0, 1]).getD 0 [])
    = Except.ok ([0, 1], [0, 0], [1, 0])
  rw [weightsB]
  rfl

/-- Scenario C time course of voxel 12 (constant). -/
lemma colC_12 : colOf dataC 12 = [5, 5] := by
  unfold colOf dataC
  rw [List.map_cons, List.map_cons, List.map_nil,
    getD_range_map _ _ (by norm_num), getD_range_map _ _ (by norm_num)]
  norm_num

/-- Scenario C time course of voxel 13. -/
lemma colC_13 : colOf dataC 13 = [0, 2] := by
  unfold colOf dataC
  rw [List.map_cons, List.map_cons, List.map_nil,
    getD_range_map _ _ (by norm_num), getD_range_map _ _ (by norm_num)]
  norm_num

/-- Scenario C pre-pruning in-mask sequence. -/
lemma iv0C : iv0Of (3,3,3) maskC = [12, 13] := by decide

/-- Scenario C z-scored columns: the zero-variance column is zeroed but
kept. -/
lemma zcC : zcOf (3,3,3) maskC dataC = [[0, 0], [-1, 1]] := by
  unfold zcOf zcolsOf
  rw [iv0C, List.map_cons, List.map_cons, List.map_nil, colC_12, colC_13,
    zscore_55, zscore_01]

/-- Scenario C variance filter: only position 1 (voxel 13) survives. -/
lemma vndxC : vndxO (3,3,3) maskC dataC = [1] := by
  unfold vndxO vndxOf
  rw [zcC]
  rw [show ([[(0 : ℝ), 0], [-1, 1]] : List (List ℝ)).length = 2 from rfl]
  rw [show List.range 2 = [0, 1] from rfl]
  rw [List.filter_cons_of_neg, List.filter_cons_of_pos, List.filter_nil]
  · exact decide_eq_true (by
      rw [show ([[(0 : ℝ), 0], [-1, 1]] : List (List ℝ)).getD 1 [] = [-1, 1] from rfl,
        var0_m11]
      norm_num)
  · simp only [List.getD_cons_zero, var0_00, decide_eq_true_eq]
    norm_num

/-- Scenario C final retained sequence. -/
lemma ivC : ivO (3,3,3) maskC dataC = [13] := by
  unfold ivO ivFinal
  rw [vndxC, iv0C]
  rfl

/-- Scenario C sparse map entries: voxel 13 carries value 2 = (position in
the PRE-pruning sequence) + 1, not 1. -/
lemma entrC : entriesO (3,3,3) maskC dataC = [(13, 2)] := by
  unfold entriesO cscEntries
  rw [ivC, vndxC]
  rfl

/-- Scenario C FC map of voxel 13 (against both in-mask columns, the
zeroed one included). -/
lemma fcC1 : fcMap [[0, 0], [-1, 1]] 2 [-1, 1] = [0, 2] := by
  unfold fcMap dotR
  rw [List.map_cons, List.map_cons, List.map_nil]
  norm_num

/-- Self-covariance of the FC row `[0, 2]`. -/
lemma covC_xx : covEntry [(0 : ℝ), 2] [(0 : ℝ), 2] = 2 := by
  have hm : meanR [(0 : ℝ), 2] = 1 := by
    unfold meanR
    norm_num
  unfold covEntry
  rw [hm]
  norm_num

/-- Scenario C emitted weight row: the single self-weight 1. -/
lemma weightsC : (weightsOf [[0, 0], [-1, 1]] 2 (3/10) [1]).getD 0 [] = [1] := by
  unfold weightsOf
  have hfc : (([1] : List ℕ).map (fun q => ([[0, 0], [-1, 1]] : List (List ℝ)).getD q [])).map
      (fun col => fcMap [[0, 0], [-1, 1]] 2 col) = [[0, 2]] := by
    simp only [List.map_cons, List.map_nil]
    rw [show ([[(0 : ℝ), 0], [-1, 1]] : List (List ℝ)).getD 1 [] = [-1, 1] from rfl, fcC1]
  rw [hfc]
  unfold corrcoef
  simp only [List.map_cons, List.map_nil]
  rw [List.getD_cons_zero]
  rw [covC_xx]
  have h2 : Real.sqrt 2 * Real.sqrt 2 = 2 := Real.mul_self_sqrt (by norm_num)
  rw [h2]
  have h1 : (2 : ℝ) / 2 = 1 := by norm_num
  rw [h1]
  unfold threshClip
  norm_num

/-- Scenario C seed step at voxel 13: one survivor, compact position 1
(its position in the pre-pruning sequence), self-weight 1. -/
lemma seedStepC : seedStep (3,3,3) 27 [(13, 2)] [[0, 0], [-1, 1]] 2 (3/10) 13
    = Except.ok ([1], [1], [1]) := by
  unfold seedStep
  rw [lookupAll_of_bounds (by decide)]
  show seedEmit [[0, 0], [-1, 1]] 2 (3/10) 13 (stencilFlats (3,3,3) 13)
      ((stencilFlats (3,3,3) 13).map (fun f => cscValue [(13, 2)] (wrapIdx 27 f)))
    = Except.ok ([1], [1], [1])
  unfold seedEmit
  rw [show nndxOf 13 ((survOf (stencilFlats (3,3,3) 13)
      ((stencilFlats (3,3,3) 13).map (fun f => cscValue [(13, 2)] (wrapIdx 27 f)))).map
        (fun p => p.1)) = [0] from by decide]
  rw [show (survOf (stencilFlats (3,3,3) 13) ((stencilFlats (3,3,3) 13).map
      (fun f => cscValue [(13, 2)] (wrapIdx 27 f)))).map (fun p => p.2 - 1) = [1] from by decide]
  show Except.ok (([1] : List ℕ), List.replicate ([1] : List ℕ).length (([1] : List ℕ).getD 0 0),
      (weightsOf [[0, 0], [-1, 1]] 2 (3/10) [1]).getD 0 [])
    = Except.ok ([1], [1], [1])
  rw [weightsC]
  rfl

/-- Scenario D time course at any in-volume voxel. -/
lemma colD {v : ℕ} (h : v < 8) : colOf dataD v = [1, 1, 1, 1, -4] := by
  unfold colOf dataD
  simp only [List.map_cons, List.map_nil]
  rw [getD_replicate h, getD_replicate h]

/-- Scenario D pre-pruning in-mask sequence: all eight voxels. -/
lemma iv0D : iv0Of (2,2,2) maskD = [0, 1, 2, 3, 4, 5, 6, 7] := by decide

/-- Scenario D z-scored columns. -/
lemma zcD : zcOf (2,2,2) maskD dataD
    = List.replicate 8 [1/2, 1/2, 1/2, 1/2, -2] := by
  unfold zcOf zcolsOf
  rw [iv0D]
  simp only [List.map_cons, List.map_nil]
  rw [colD (by norm_num : (0 : ℕ) < 8), colD (by norm_num : (1 : ℕ) < 8),
    colD (by norm_num : (2 : ℕ) < 8), colD (by norm_num : (3 : ℕ) < 8),
    colD (by norm_num : (4 : ℕ) < 8), colD (by norm_num : (5 : ℕ) < 8),
    colD (by norm_num : (6 : ℕ) < 8), colD (by norm_num : (7 : ℕ) < 8), zscore_D]
  rfl

/-- Scenario D variance filter: all eight columns survive. -/
lemma vndxD : vndxO (2,2,2) maskD dataD = [0, 1, 2, 3, 4, 5, 6, 7] := by
  unfold vndxO vndxOf
  rw [zcD]
  rw [show (List.replicate 8 [(1 : ℝ)/2, 1/2, 1/2, 1/2, -2]).length = 8 from rfl]
  have hfull : (List.range 8).filter (fun j => decide (var0
      ((List.replicate 8 [(1 : ℝ)/2, 1/2, 1/2, 1/2, -2]).getD j []) ≠ 0)) = List.range 8 := by
    rw [List.filter_eq_self]
    intro a ha
    have ha8 : a < 8 := List.mem_range.mp ha
    rw [getD_replicate ha8]
    exact decide_eq_true (by rw [var0_zD]; norm_num)
  rw [hfull]
  rfl

/-- Scenario D final retained sequence: all eight voxels. -/
lemma ivD : ivO (2,2,2) maskD dataD = [0, 1, 2, 3, 4, 5, 6, 7] := by
  unfold ivO ivFinal
  rw [vndxD, iv0D]
  rfl

/-- Scenario D sparse map entries. -/
lemma entrD : entriesO (2,2,2) maskD dataD
    = [(0, 1), (1, 2), (2, 3), (3, 4), (4, 5), (5, 6), (6, 7), (7, 8)] := by
  unfold entriesO cscEntries
  rw [ivD, vndxD]
  rfl

/-- Scenario D corner seed 0: all 27 candidates survive the mask-map
filtering — the negative candidate indices wrap around to in-mask voxels
at the far end of the flat index space, and the in-range collisions hit
other in-mask voxels — so 27 rows are emitted, whatever the data columns,
time-point count and threshold. -/
lemma seedStepD0 (zc : List (List ℝ)) (T : ℕ) (t : ℝ) :
    (seedStep (2,2,2) 8 [(0, 1), (1, 2), (2, 3), (3, 4), (4, 5), (5, 6), (6, 7), (7, 8)]
        zc T t 0).map (fun x => x.1.length) = Except.ok 27 := by
  unfold seedStep
  rw [lookupAll_of_bounds (by decide)]
  rfl

/-- Scenario E pre-pruning in-mask sequence: the corner voxel only. -/
lemma iv0E : iv0Of (2,2,2) maskE = [0] := by decide

/-- Scenario E time course of voxel 0. -/
lemma colE_0 : colOf dataE 0 = [0, 2] := by
  unfold colOf dataE
  rw [List.map_cons, List.map_cons, List.map_nil,
    getD_replicate (by norm_num), getD_replicate (by norm_num)]

/-- Scenario E z-scored columns. -/
lemma zcE : zcOf (2,2,2) maskE dataE = [[-1, 1]] := by
  unfold zcOf zcolsOf
  rw [iv0E, List.map_cons, List.map_nil, colE_0, zscore_01]

/-- Scenario E variance filter. -/
lemma vndxE : vndxO (2,2,2) maskE dataE = [0] := by
  unfold vndxO vndxOf
  rw [zcE]
  rw [show ([[(-1 : ℝ), 1]] : List (List ℝ)).length = 1 from rfl]
  rw [show List.range 1 = [0] from rfl]
  rw [List.filter_cons_of_pos, List.filter_nil]
  exact decide_eq_true (by simp only [List.getD_cons_zero]; rw [var0_m11]; norm_num)

/-- Scenario E final retained sequence. -/
lemma ivE : ivO (2,2,2) maskE dataE = [0] := by
  unfold ivO ivFinal
  rw [vndxE, iv0E]
  rfl

/-! ### Counterexamples and witnesses at the concrete inputs -/

/-- Counterexample to claim C1 as stated: in scenario A the only retained
voxel has flat index 13, yet the single emitted triplet is (0, 0, 0) — the
row and column entries are the seed's compact retained-set position 0, not
the neighbour's/seed's flat voxel index 13, so compact positions do appear
in the output's row and column segments. -/
theorem rowsAreCompact_cex :
    makeLocalConnectivityScorr (3,3,3) maskA dataA (3/10) = Except.ok [0, 0, 0] ∧
      ivO (3,3,3) maskA dataA = [13] ∧ (0 : ℝ) ≠ 13 :=
  ⟨pipelineA (3/10), ivA, by norm_num⟩

/-- Witness for the amended C1 at scenario A: the emitted row list `[0]`
lies in `vndx` and the column list is the seed's compact position
repeated. -/
theorem rowsAreCompact_amended_witness :
    (∀ x ∈ ([0] : List ℕ), x ∈ vndxO (3,3,3) maskA dataA) ∧
      ([0] : List ℕ) = List.replicate ([0] : List ℕ).length
        ((vndxO (3,3,3) maskA dataA).getD 0 0) := by
  have hi : (0 : ℕ) < (ivO (3,3,3) maskA dataA).length := by
    rw [ivA]
    norm_num
  have hstep : seedStep (3,3,3) (Npix (3,3,3)) (entriesO (3,3,3) maskA dataA)
      (zcOf (3,3,3) maskA dataA) dataA.length (3/10) ((ivO (3,3,3) maskA dataA).getD 0 0)
      = Except.ok ([0], [0], [0]) := by
    rw [entrA, zcA, ivA]
    rw [show (Npix (3,3,3)) = 27 from rfl, show dataA.length = 2 from rfl]
    rw [show ([13] : List ℕ).getD 0 0 = 13 from rfl]
    exact seedStepA (3/10)
  exact rowsAreCompact_amended (3,3,3) maskA dataA (3/10) 0 hi [0] [0] [0] hstep

/-- Counterexample to claim C2's bounds story: with the fully in-mask
2×2×2 volume and length-5 time courses, the corner seed 0 emits 27 rows,
not 8 — the negative candidate flat indices wrap to the far end of the
flat index space and the in-range collisions hit other in-mask voxels, so
out-of-volume stencil positions are not excluded by the mask-index-map
filtering.  (The seed is retained: it is the head of the final retained
sequence.) -/
theorem stencilFilter_cex :
    (seedStep (2,2,2) (Npix (2,2,2)) (entriesO (2,2,2) maskD dataD)
        (zcOf (2,2,2) maskD dataD) dataD.length (3/10) 0).map (fun x => x.1.length)
      = Except.ok 27 ∧ (ivO (2,2,2) maskD dataD).getD 0 0 = 0 := by
  constructor
  · rw [entrD, show (Npix (2,2,2)) = 8 from rfl]
    exact seedStepD0 _ _ _
  · rw [ivD]
    rfl

/-- Witness for the amended C2 at scenario A: the single emitted row
corresponds to the single candidate whose wrapped index is retained. -/
theorem stencilFilter_amended_witness :
    ([0] : List ℕ).length = ((stencilFlats (3,3,3) 13).filter
      (fun f => decide (wrapIdx (Npix (3,3,3)) f
        ∈ (ivO (3,3,3) maskA dataA).map (fun v => ((v : ℕ) : ℤ))))).length := by
  have hstep : seedStep (3,3,3) (Npix (3,3,3)) (entriesO (3,3,3) maskA dataA)
      (zcOf (3,3,3) maskA dataA) dataA.length (3/10) 13 = Except.ok ([0], [0], [0]) := by
    rw [entrA, zcA, show (Npix (3,3,3)) = 27 from rfl, show dataA.length = 2 from rfl]
    exact seedStepA (3/10)
  exact stencilFilter_amended (3,3,3) maskA dataA (3/10) 13 [0] [0] [0] hstep

/-- Witness for C3 at scenario A. -/
theorem threshold_law_witness :
    ∃ ri rj rw2 : List ℝ, ([0, 0, 0] : List ℝ) = ri ++ rj ++ rw2 ∧
      ri.length = rw2.length ∧ rj.length = rw2.length ∧
      (∀ x ∈ rw2, x = 0 ∨ (3 : ℝ)/10 ≤ x) ∧
      (∀ x : ℝ, (3 : ℝ)/10 ≤ x → threshClip (3/10) x = x) :=
  threshold_law (3,3,3) maskA dataA (3/10) [0, 0, 0] (pipelineA (3/10))

/-- Counterexample to claim C4 as stated: in scenario A with threshold 0
(≤ 1, so the claim predicts one edge with row = column = 13 and weight 1),
the single emitted triplet is (0, 0, 0) — its indices are the compact
position 0, not the flat index 13, and its weight is 0 even before the
threshold could zero anything, because with a single retained voxel the
FC row's self-covariance degenerates to 0/0 (a NaN, substituted by 0). -/
theorem selfEdge_cex :
    makeLocalConnectivityScorr (3,3,3) maskA dataA 0 = Except.ok [0, 0, 0] ∧
      ivO (3,3,3) maskA dataA = [13] :=
  ⟨pipelineA 0, ivA⟩

/-- Witness for the amended C4 at scenario B: exactly one of the two
emitted edges has row = column, and it carries the seed's compact
position 0 with weight 1. -/
theorem selfEdge_amended_witness :
    ((([0, 1] : List ℕ).zip (([0, 0] : List ℕ).zip ([1, 0] : List ℝ))).filter
      (fun q => decide (q.1 = q.2.1))) = [(0, 0, (1 : ℝ))] := by
  have hi : (0 : ℕ) < (ivO (3,3,3) maskB dataB).length := by
    rw [ivB]
    norm_num
  have hstep : seedStep (3,3,3) (Npix (3,3,3)) (entriesO (3,3,3) maskB dataB)
      (zcOf (3,3,3) maskB dataB) dataB.length (3/10) ((ivO (3,3,3) maskB dataB).getD 0 0)
      = Except.ok ([0, 1], [0, 0], [1, 0]) := by
    rw [entrB, zcB, ivB]
    rw [show (Npix (3,3,3)) = 27 from rfl, show dataB.length = 2 from rfl]
    rw [show ([13, 14] : List ℕ).getD 0 0 = 13 from rfl]
    exact seedStepB
  have h := selfEdge_amended (3,3,3) maskB dataB (3/10) 0 hi [0, 1] [0, 0] [1, 0] hstep
  rw [vndxB, zcB] at h
  simp only [List.getD_cons_zero] at h
  rw [show dataB.length = 2 from rfl] at h
  simp only [fcB1, covB_xx] at h
  rw [if_neg (by norm_num : ¬ (8 : ℝ) = 0)] at h
  rw [threshClip_of_ge (by norm_num : (3 : ℝ)/10 ≤ 1)] at h
  exact h

/-- Counterexample to claim C6 as stated: in scenario C the sole retained
voxel 13 sits at position 0 of the final retained sequence, so the claim
predicts a map value of 1; the map actually stores 2, voxel 13's position
in the PRE-pruning in-mask sequence (after the dropped zero-variance
voxel 12) plus one. -/
theorem maskMap_cex :
    cscLookup (Npix (3,3,3)) (entriesO (3,3,3) maskC dataC) 13 = Except.ok 2 ∧
      ivO (3,3,3) maskC dataC = [13] := by
  refine ⟨?_, ivC⟩
  rw [entrC]
  rfl

/-- Witness for the amended C6 at scenario C. -/
theorem maskMap_amended_witness :
    cscLookup (Npix (3,3,3)) (entriesO (3,3,3) maskC dataC)
        (((ivO (3,3,3) maskC dataC).getD 0 0 : ℕ) : ℤ)
      = Except.ok ((vndxO (3,3,3) maskC dataC).getD 0 0 + 1) ∧
      (iv0Of (3,3,3) maskC).getD ((vndxO (3,3,3) maskC dataC).getD 0 0) 0
        = (ivO (3,3,3) maskC dataC).getD 0 0 :=
  maskMap_amended (3,3,3) maskC dataC 0 (by rw [ivC]; norm_num)

/-- Counterexample to claim C7 as stated: in scenario C the final retained
set has one voxel, yet the time-course matrix entering the FC product has
two columns — the zero-variance voxel's (zeroed) column was never
removed. -/
theorem fcColumns_cex :
    (zcOf (3,3,3) maskC dataC).length = 2 ∧ (ivO (3,3,3) maskC dataC).length = 1 := by
  constructor
  · rw [zcC]
    rfl
  · rw [ivC]
    rfl

/-- Witness for the amended C7 at scenario C. -/
theorem fcColumns_amended_witness :
    (zcOf (3,3,3) maskC dataC).length = (iv0Of (3,3,3) maskC).length ∧
    (∀ j, j < (iv0Of (3,3,3) maskC).length →
      (zcOf (3,3,3) maskC dataC).getD j []
        = zscore (colOf dataC ((iv0Of (3,3,3) maskC).getD j 0))) ∧
    (∀ j, j < (iv0Of (3,3,3) maskC).length →
      var0 (colOf dataC ((iv0Of (3,3,3) maskC).getD j 0)) = 0 →
      (zcOf (3,3,3) maskC dataC).getD j []
        = List.replicate (colOf dataC ((iv0Of (3,3,3) maskC).getD j 0)).length 0) ∧
    (∀ col : List ℝ, (fcMap (zcOf (3,3,3) maskC dataC) dataC.length col).length
      = (iv0Of (3,3,3) maskC).length) :=
  fcColumns_amended (3,3,3) maskC dataC

/-- Witness for C8 at scenario C: the retained voxel 13 is in-mask, and
the seed step's emitted row list `[1]` references only retained voxels. -/
theorem retainedSet_invariant_witness :
    (13 ∈ ivO (3,3,3) maskC dataC → maskC.getD 13 0 ≠ 0 ∧ var0 (colOf dataC 13) ≠ 0) ∧
    (∀ x ∈ ([1] : List ℕ), x ∈ vndxO (3,3,3) maskC dataC ∧
      (iv0Of (3,3,3) maskC).getD x 0 ∈ ivO (3,3,3) maskC dataC) := by
  have h := retainedSet_invariant (3,3,3) maskC dataC (3/10)
  refine ⟨fun hmem => h.1 13 hmem, ?_⟩
  have hstep : seedStep (3,3,3) (Npix (3,3,3)) (entriesO (3,3,3) maskC dataC)
      (zcOf (3,3,3) maskC dataC) dataC.length (3/10) 13 = Except.ok ([1], [1], [1]) := by
    rw [entrC, zcC, show (Npix (3,3,3)) = 27 from rfl, show dataC.length = 2 from rfl]
    exact seedStepC
  exact (h.2.2 13 [1] [1] [1] hstep).1

/-- Witness for C9: a 1×1×1 volume with an all-zero mask completes and
yields the empty output vector. -/
theorem emptyMask_ok_witness :
    inmaskIndices (Npix (1,1,1)) [(0 : ℤ)] = [] ∧
      makeLocalConnectivityScorr (1,1,1) [(0 : ℤ)] [[(0 : ℝ)]] (3/10) = Except.ok [] :=
  ⟨by decide, emptyMask_ok (1,1,1) [0] [[0]] (3/10) (by decide)⟩

/-- Witness for C10 at scenario E: the retained corner voxel 0 has
x-coordinate 0 and its stencil contains out-of-range flat indices; the
lookup errors at or past `Npix` and wraps negative indices. -/
theorem lookup_not_total_witness :
    (∃ f ∈ stencilFlats (2,2,2) 0, f < 0 ∨ ((Npix (2,2,2) : ℕ) : ℤ) ≤ f) ∧
    (∀ f : ℤ, ((Npix (2,2,2) : ℕ) : ℤ) ≤ f →
      cscLookup (Npix (2,2,2)) (entriesO (2,2,2) maskE dataE) f
        = Except.error "IndexError: row index out of bounds") ∧
    (∀ f : ℤ, -((Npix (2,2,2) : ℕ) : ℤ) ≤ f → f < 0 →
      cscLookup (Npix (2,2,2)) (entriesO (2,2,2) maskE dataE) f
        = cscLookup (Npix (2,2,2)) (entriesO (2,2,2) maskE dataE)
            (f + (Npix (2,2,2) : ℕ))) := by
  apply lookup_not_total (2,2,2) maskE dataE 0
  · rw [ivE]
    exact List.mem_singleton.mpr rfl
  · left
    rfl
